import Mathlib

/-!
A shallow embedding of the Forth interpreter in `src/forth.js` together with
proofs about it.

Modelling conventions:

* JS numbers are 64-bit floats; every value manipulated by the interpreter in
  the executions studied here is an integer that a float represents exactly
  (the spec states this assumption in its data-model section), so cells are
  modelled as `Int`.
* The single `ArrayBuffer` is viewed by the source through two typed arrays,
  `_chars : Uint8Array` and `_cells : Float64Array`.  The model keeps the two
  views as two sparse maps (`Tree`, a binary trie keyed by `Nat`), exactly as
  the source keeps two array objects.  The bit-level aliasing between the two
  views is not modelled: in every execution proved below no address is written
  through one view and read through the other with a non-zero value (the only
  overlap is the zero parameter-field cell written by `addWord`, whose eight
  bytes are zero in both models).  Typed-array out-of-bounds accesses are
  likewise not modelled (no execution below leaves `[0, 64000)`); the maps
  default to `0`, matching the zero-initialised buffer.
* JS `x % y` on integers is `Int.tmod`, `Math.floor(x / y)` is `Int.fdiv`,
  and `x >> 3` on an in-range value is `Int.fdiv x 8`.
* JS exceptions are the `Except.error` branch of the machine monad `M`; the
  JS machine object survives a throw, so `M` is state-passing with the state
  kept on the error branch.
* Loops of the source become recursion on an explicit counter holding the
  number of remaining iterations; unbounded recursion (`EXECUTE` through the
  runtimes, the outer interpreter loop, the `FIND` link walk) gets a fuel
  parameter, with fuel exhaustion an error that no execution below reaches.
-/

namespace Forth


/-- A binary trie from bit-list keys to `Int` values, defaulting to `0`:
the model of a zero-initialised typed array.  Keys are the
`keyBits`-encoded array indices.  All recursions of the development are
written with bare eliminators (`List.rec`, `Nat.rec`) so that the kernel
can evaluate the interpreter definitionally in the concrete-run theorems
below. -/
inductive Tree : Type where
  | nil : Tree
  | node : Tree → Option Int → Tree → Tree

/-- The `n` low bits of an array index, least significant first. -/
def keyBitsAux (n : Nat) : Nat → List Bool :=
  Nat.rec (motive := fun _ => Nat → List Bool)
    (fun _ => [])
    (fun _ ih k => decide (k % 2 = 1) :: ih (k / 2))
    n

/-- The 17 low bits of an array index.  Every address of the 64000-byte
image fits; the fixed width keeps lookup and update plain structural
recursions on the key. -/
def keyBits (k : Nat) : List Bool := keyBitsAux 17 k

/-- Look a key up; absent keys read as `0`. -/
def Tree.find (t : Tree) (ks : List Bool) : Int :=
  List.rec (motive := fun _ => Tree → Int)
    (fun t => match t with
      | Tree.nil => 0
      | Tree.node _ v _ => v.getD 0)
    (fun b _ ih t => match t with
      | Tree.nil => 0
      | Tree.node l _ r => if b then ih l else ih r)
    ks t

/-- Write a key. -/
def Tree.insert (t : Tree) (ks : List Bool) (v : Int) : Tree :=
  List.rec (motive := fun _ => Tree → Tree)
    (fun t => match t with
      | Tree.nil => Tree.node Tree.nil (some v) Tree.nil
      | Tree.node l _ r => Tree.node l (some v) r)
    (fun b _ ih t => match t with
      | Tree.nil =>
        if b then Tree.node (ih Tree.nil) none Tree.nil
        else Tree.node Tree.nil none (ih Tree.nil)
      | Tree.node l w r =>
        if b then Tree.node (ih l) w r
        else Tree.node l w (ih r))
    ks t

/-- Array read at a `Nat` index. -/
def Tree.get (t : Tree) (k : Nat) : Int := t.find (keyBits k)

/-- Array write at a `Nat` index. -/
def Tree.set (t : Tree) (k : Nat) (v : Int) : Tree := t.insert (keyBits k) v

-- Registers (byte offsets into the memory image), from the top of forth.js.
def STATE_ADDR : Int := 72

def TO_IN_ADDR : Int := 80

def INPUT_BUFFER_CHARS_ADDR : Int := 88

def CURRENT_DEF_ADDR : Int := 96

-- Memory regions.
def INPUT_BUFFER_ADDR : Int := 120

def INPUT_BUFFER_SIZE : Int := 256

def DATA_STACK_ADDR : Int := 376

def RET_STACK_ADDR : Int := 632

def POD_ADDR : Int := 8824

def PARSE_WORD_ADDR : Int := 9544

def NATIVE_XT_ADDR : Int := 9800

def DSP_START_ADDR : Int := 10000

def MEMORY_SIZE : Int := 64000

def Immediate : Int := 1

def Hidden : Int := 2

/-- The interpreter state: the two typed-array views of the memory image, the
three process-side registers, the number of entries of `_wordMap` (the JS map
from runtime id to native action; the actions themselves are the static
dispatch table `execPlain`/`EXECUTE` below, keyed by registration index), and
the strings passed to the `write` sink so far (most recent first). -/
structure Machine : Type where
  chars : Tree
  cells : Tree
  ds : Int
  s : Int
  r : Int
  wordCount : Nat
  out : List String

/-- The machine monad: state passing with a JS-style exception channel.  The
state at the moment of the throw is kept, as the JS machine object is mutated
in place. -/
def M (α : Type) : Type := Machine → Except String α × Machine

def mPure {α : Type} (a : α) : M α := fun st => (Except.ok a, st)

def mBind {α β : Type} (m : M α) (f : α → M β) : M β := fun st =>
  match m st with
  | (Except.ok a, st') => f a st'
  | (Except.error e, st') => (Except.error e, st')

instance : Monad M where
  pure := mPure
  bind := mBind

/-- Model of `throw new Error(msg)`. -/
def throwErr {α : Type} (msg : String) : M α := fun st => (Except.error msg, st)

def getM : M Machine := fun st => (Except.ok st, st)

def modifyM (f : Machine → Machine) : M Unit := fun st => (Except.ok (), f st)

/-- Model of the `write` callback: collect the emitted text. -/
def write (text : String) : M Unit :=
  modifyM (fun st => { st with out := text :: st.out })

/-- Model of `try { m } catch (e) { ... }`: the result tells the caller
whether an exception was caught, and execution continues from the state at
the throw (the JS objects are mutated in place). -/
def attempt (m : M Unit) : M (Option String) := fun st =>
  match m st with
  | (Except.ok _, st') => (Except.ok none, st')
  | (Except.error e, st') => (Except.ok (some e), st')

-- ---------------------------------------------------------------------
-- Memory access helpers (store / fetch / cStore / cFetch of the source)
-- ---------------------------------------------------------------------

/-- Pure read of the cell view at a byte address: `_cells[aAddr>>3]`. -/
def cellAt (cells : Tree) (aAddr : Int) : Int :=
  cells.get ((Int.fdiv aAddr 8).toNat)

/-- Pure read of the char view at a byte address: `_chars[cAddr]`. -/
def charAt (chars : Tree) (cAddr : Int) : Int :=
  chars.get cAddr.toNat

/-- The result of a cell write.  The conditional returns the same pair on
both branches (`writeCell_eq` below), but its condition is forced on the
evaluation spine of a run, which walks the freshly updated path: this
keeps every reachable tree node in constructor form, so that definitional
evaluation of long runs needs only constant stack depth. -/
def writeCell (st : Machine) (k : Nat) (x : Int) : Except String Unit × Machine :=
  let t2 := st.cells.insert (keyBits k) x
  if t2.find (keyBits k) = x then (Except.ok (), { st with cells := t2 })
  else (Except.ok (), { st with cells := t2 })

/-- The result of a char write; see `writeCell`. -/
def writeChar (st : Machine) (k : Nat) (x : Int) : Except String Unit × Machine :=
  let t2 := st.chars.insert (keyBits k) x
  if t2.find (keyBits k) = x then (Except.ok (), { st with chars := t2 })
  else (Except.ok (), { st with chars := t2 })

/-- Stores an f64 number to memory (`store` of the source, with its
dictionary-head guard and alignment guard). -/
def store (x aAddr : Int) : M Unit := fun st =>
  if aAddr = CURRENT_DEF_ADDR ∧ (x < DSP_START_ADDR ∨ x > MEMORY_SIZE) ∧ x ≠ 0 then
    (Except.error ("Wrong DSP_START_ADDR: " ++ toString x), st)
  else if Int.tmod aAddr 8 ≠ 0 then
    (Except.error ("Address is not aligned. Given: " ++ toString aAddr), st)
  else
    writeCell st ((Int.fdiv aAddr 8).toNat) x

/-- Loads an f64 number from memory (`fetch` of the source). -/
def fetch (aAddr : Int) : M Int := fun st =>
  if Int.tmod aAddr 8 ≠ 0 then
    (Except.error ("Address is not aligned. Given: " ++ toString aAddr), st)
  else
    (Except.ok (cellAt st.cells aAddr), st)

/-- Stores an i8 char to memory (`cStore` of the source); the `Uint8Array`
write keeps the low byte. -/
def cStore (char cAddr : Int) : M Unit := fun st =>
  if cAddr = CURRENT_DEF_ADDR then
    (Except.error ("Invalid access to DSP_START_ADDR"), st)
  else
    writeChar st cAddr.toNat (Int.emod char 256)

/-- Loads an i8 char from memory (`cFetch` of the source). -/
def cFetch (cAddr : Int) : M Int := fun st =>
  (Except.ok (charAt st.chars cAddr), st)

-- ---------------------------------------------------------------------
-- Stacks
-- ---------------------------------------------------------------------

/-- Pushes a number to the data stack. -/
def push (x : Int) : M Unit := do
  let st ← getM
  store x st.s
  modifyM (fun m => { m with s := m.s + 8 })

/-- Gets the top number of the data stack. -/
def pop : M Int := do
  let st ← getM
  if st.s = DATA_STACK_ADDR then
    throwErr ("Stack underflow")
  else do
    modifyM (fun m => { m with s := m.s - 8 })
    let st' ← getM
    fetch st'.s

/-- Gets a number from the stack (`pick` of the source). -/
def pick (i : Int) : M Int := do
  let st ← getM
  let ptr := st.s - 8 - i * 8
  if ptr < DATA_STACK_ADDR then
    throwErr ("Stack underflow")
  else
    fetch ptr

/-- Gets the stack depth.  NOTE: the source computes
`(S - DSP_START_ADDR) >> 3`, i.e. it subtracts the data-space start 10000,
not the data-stack base 376; the model is faithful to that. -/
def depth : M Int := do
  let st ← getM
  mPure (Int.fdiv (st.s - DSP_START_ADDR) 8)

/-- Empties the data stack. -/
def empty : M Unit := modifyM (fun m => { m with s := DATA_STACK_ADDR })

/-- Pushes a number to the return stack. -/
def rPush (x : Int) : M Unit := do
  let st ← getM
  store x st.r
  modifyM (fun m => { m with r := m.r + 8 })

/-- Gets the top number of the return stack. -/
def rPop : M Int := do
  let st ← getM
  if st.r = RET_STACK_ADDR then
    throwErr ("Stack underflow")
  else do
    modifyM (fun m => { m with r := m.r - 8 })
    let st' ← getM
    fetch st'.r

/-- Gets a number from the return stack. -/
def rPick (i : Int) : M Int := do
  let st ← getM
  let ptr := st.r - 8 - i * 8
  if ptr < RET_STACK_ADDR then
    throwErr ("Stack underflow")
  else
    fetch ptr

/-- Empties the return stack. -/
def rEmpty : M Unit := modifyM (fun m => { m with r := RET_STACK_ADDR })

-- ---------------------------------------------------------------------
-- Numbers
-- ---------------------------------------------------------------------

/-- Source `+ ( n1 n2 -- n3 )` -/
def SUM : M Unit := do
  let n2 ← pop
  let n1 ← pop
  push (n1 + n2)

/-- Source `- ( n1 n2 -- n3 )` -/
def MINUS : M Unit := do
  let n2 ← pop
  let n1 ← pop
  push (n1 - n2)

/-- Source `= ( x1 x2 -- flag )` -/
def EQUALS : M Unit := do
  let n2 ← pop
  let n1 ← pop
  push (if n1 = n2 then -1 else 0)

/-- Source `0= ( x -- flag )` -/
def ZERO_EQUALS : M Unit := do
  let n1 ← pop
  push (if n1 = 0 then -1 else 0)

/-- Source `TRUE ( -- true )` -/
def TRUE : M Unit := push (-1)

/-- Source `FALSE ( -- false )` -/
def FALSE : M Unit := push 0

-- ---------------------------------------------------------------------
-- Stack operations
-- ---------------------------------------------------------------------

/-- Source `DROP ( x -- )` -/
def DROP : M Unit := do
  let _ ← pop
  mPure ()

/-- Source `DUP ( x -- x x )` -/
def DUP : M Unit := do
  let x ← pick 0
  push x

/-- Source `?DUP ( x -- 0 | x x )` -/
def QUESTION_DUP : M Unit := do
  let x ← pick 0
  if x ≠ 0 then push x else mPure ()

/-- Source `PICK ( xu...x1 x0 u -- xu...x1 x0 xu )` -/
def PICK : M Unit := do
  let u ← pop
  let x ← pick u
  push x

/-- Source `OVER ( x1 x2 -- x1 x2 x1 )` -/
def OVER : M Unit := do
  let x ← pick 1
  push x

/-- Source `SWAP ( x1 x2 -- x2 x1 )` -/
def SWAP : M Unit := do
  let x2 ← pop
  let x1 ← pop
  push x2
  push x1

/-- Source `NIP ( x1 x2 -- x2 )` -/
def NIP : M Unit := do
  let x2 ← pop
  let _ ← pop
  push x2

/-- Source `ROT ( x1 x2 x3 -- x2 x3 x1 )` -/
def ROT : M Unit := do
  let x3 ← pop
  let x2 ← pop
  let x1 ← pop
  push x2
  push x3
  push x1

/-- Source `TUCK ( x1 x2 -- x2 x1 x2 )` -/
def TUCK : M Unit := do
  let x2 ← pop
  let x1 ← pop
  push x2
  push x1
  push x2

/-- Source `DEPTH ( -- +n )`: pushes the result of the `depth` helper. -/
def DEPTH : M Unit := do
  let n ← depth
  push n

-- ---------------------------------------------------------------------
-- Return stack operations
-- ---------------------------------------------------------------------

/-- Source `>R ( x -- ) ( R: -- x )` -/
def TO_R : M Unit := do
  let x ← pop
  rPush x

/-- Source `R> ( -- x ) ( R: x -- )` -/
def R_FROM : M Unit := do
  let x ← rPop
  push x

/-- Source `R@ ( -- x ) ( R: x -- x )` -/
def R_FETCH : M Unit := do
  let x ← rPick 0
  push x

/-- Source `CHARS ( n1 -- n2 )`: a char is one address unit, so a no-op. -/
def CHARS : M Unit := mPure ()

/-- Source `CELLS ( n1 -- n2 )` -/
def CELLS : M Unit := do
  let n1 ← pop
  push (n1 * 8)

-- ---------------------------------------------------------------------
-- Memory operations
-- ---------------------------------------------------------------------

/-- Source `HERE ( -- addr )` -/
def HERE : M Unit := do
  let st ← getM
  push st.ds

/-- Source `ALIGNED ( addr -- a-addr )` -/
def ALIGNED : M Unit := do
  let addr ← pop
  let rem := Int.tmod addr 8
  let delta := if rem = 0 then 0 else 8 - rem
  push (addr + delta)

/-- Source `ALLOT ( n -- )` (defined before `ALIGN`, which uses it). -/
def ALLOT : M Unit := do
  let n ← pop
  modifyM (fun m => { m with ds := m.ds + n })

/-- Source `ALIGN ( -- )` -/
def ALIGN : M Unit := do
  HERE
  DUP
  ALIGNED
  SWAP
  MINUS
  ALLOT

/-- Source `! ( x a-addr -- )` -/
def STORE : M Unit := do
  let aAddr ← pop
  let x ← pop
  store x aAddr

/-- Source `@ ( a-addr -- x )` -/
def FETCH : M Unit := do
  let aAddr ← pop
  let x ← fetch aAddr
  push x

/-- Source `C! ( char c-addr -- )` -/
def C_STORE : M Unit := do
  let cAddr ← pop
  let char ← pop
  cStore char cAddr

/-- Source `C@ ( c-addr -- char )` -/
def C_FETCH : M Unit := do
  let cAddr ← pop
  let char ← cFetch cAddr
  push char

/-- Source `, ( x -- )` -/
def COMMA : M Unit := do
  ALIGN
  HERE
  STORE
  push 8
  ALLOT

/-- Source `C, ( char -- )` -/
def C_COMMA : M Unit := do
  HERE
  C_STORE
  push 1
  ALLOT

/-- Source `POD ( -- addr )` -/
def POD : M Unit := push POD_ADDR

-- ---------------------------------------------------------------------
-- Parsing
-- ---------------------------------------------------------------------

/-- Source `COUNT ( c-addr1 -- c-addr2 u )` -/
def COUNT : M Unit := do
  let cAddr1 ← pop
  let length ← cFetch cAddr1
  push (cAddr1 + 1)
  push length

/-- Source `EMIT ( x -- )`: bytes outside the graphic range print as a question
mark. -/
def EMIT : M Unit := do
  let char ← pop
  if 31 < char ∧ char < 127 then
    write ((Char.ofNat char.toNat).toString)
  else
    write ("?")

/-- The `while` loop of `TYPE`; `rem` counts the remaining iterations. -/
def typeGo (cAddr : Int) (rem : Nat) : Int → M Unit :=
  Nat.rec (motive := fun _ => Int → M Unit)
    (fun _ => mPure ())
    (fun _ ih index => do
      let char ← cFetch (cAddr + index)
      push char
      EMIT
      ih (index + 1))
    rem

/-- Source `TYPE ( c-addr u -- )` -/
def TYPE : M Unit := do
  let length ← pop
  let cAddr ← pop
  typeGo cAddr length.toNat 0

/-- Source `>IN ( -- a-addr )` -/
def TO_IN : M Unit := push TO_IN_ADDR

/-- Source `SOURCE ( -- c-addr u )` -/
def SOURCE : M Unit := do
  push INPUT_BUFFER_ADDR
  let numChars ← fetch INPUT_BUFFER_CHARS_ADDR
  push numChars

/-- The scan loop of `PARSE`: returns the index at which the loop stopped
(the delimiter position, or the end of the buffer). -/
def parseGo (cAddr delimiter : Int) (rem : Nat) : Int → M Int :=
  Nat.rec (motive := fun _ => Int → M Int)
    (fun index => mPure index)
    (fun _ ih index => do
      let char ← cFetch (cAddr + index)
      if char = delimiter then mPure index
      else ih (index + 1))
    rem

/-- Source `PARSE ( char "ccc<char>" -- c-addr u )` -/
def PARSE : M Unit := do
  let delimiter ← pop
  SOURCE
  let maxSize ← pop
  let cAddr ← pop
  let startIndex ← fetch TO_IN_ADDR
  let index ← parseGo cAddr delimiter (maxSize - startIndex).toNat startIndex
  store (index + 1) TO_IN_ADDR
  push (cAddr + startIndex)
  push (index - startIndex)

/-- The copy loop of `CMOVE`. -/
def cmGo (fromAddr toAddr : Int) (rem : Nat) : Int → M Unit :=
  Nat.rec (motive := fun _ => Int → M Unit)
    (fun _ => mPure ())
    (fun _ ih index => do
      let char ← cFetch (fromAddr + index)
      cStore char (toAddr + index)
      ih (index + 1))
    rem

/-- Source `CMOVE ( c-addr1 c-addr2 u -- )` (defined before `PARSE-NAME`, which
uses it). -/
def C_MOVE : M Unit := do
  let len ← pop
  let toAddr ← pop
  let fromAddr ← pop
  cmGo fromAddr toAddr len.toNat 0

/-- The scan loop of `PARSE-NAME`: skips leading spaces, accumulates the
name, stores `>IN` past the closing delimiter when one is found, and
returns `(nameAddr, nameLen)`. -/
def pnGo (inBuffAddr : Int) (rem : Nat) : Int → Int → Int → M (Int × Int) :=
  Nat.rec (motive := fun _ => Int → Int → Int → M (Int × Int))
    (fun _ nameAddr nameLen => mPure (nameAddr, nameLen))
    (fun _ ih index nameAddr nameLen => do
      let char ← cFetch (inBuffAddr + index)
      if char = 32 then
        if nameLen = 0 then
          ih (index + 1) nameAddr nameLen
        else do
          store (index + 1) TO_IN_ADDR
          mPure (nameAddr, nameLen)
      else
        ih (index + 1)
          (if nameAddr = 0 then inBuffAddr + index else nameAddr) (nameLen + 1))
    rem

/-- Source `PARSE-NAME ( "<spaces>name<space>" -- c-addr u )` -/
def PARSE_NAME : M Unit := do
  SOURCE
  let inBuffSize ← pop
  let inBuffAddr ← pop
  let startIndex ← fetch TO_IN_ADDR
  let p ← pnGo inBuffAddr (inBuffSize - startIndex).toNat startIndex 0 0
  cStore p.2 PARSE_WORD_ADDR
  push p.1
  push (PARSE_WORD_ADDR + 1)
  push p.2
  C_MOVE
  push p.1
  push p.2

/-- The scan loop of `WORD`: copies the token into the POD area as it
scans and returns the token length. -/
def wGo (inBuffAddr wordAddr delimiter : Int) (rem : Nat) : Int → Int → M Int :=
  Nat.rec (motive := fun _ => Int → Int → M Int)
    (fun _ wordLen => mPure wordLen)
    (fun _ ih i wordLen => do
      let char ← cFetch (inBuffAddr + i)
      if char = delimiter then
        if wordLen = 0 then
          ih (i + 1) wordLen
        else do
          store (i + 1) TO_IN_ADDR
          mPure wordLen
      else do
        cStore char (wordAddr + 1 + wordLen)
        ih (i + 1) (wordLen + 1))
    rem

/-- Source `WORD ( char "<chars>ccc<char>" -- c-addr )` -/
def WORD : M Unit := do
  let delimiter ← pop
  SOURCE
  let inBuffSize ← pop
  let inBuffAddr ← pop
  let startIndex ← fetch TO_IN_ADDR
  POD
  let wordAddr ← pop
  let wordLen ← wGo inBuffAddr wordAddr delimiter (inBuffSize - startIndex).toNat startIndex 0
  cStore wordLen PARSE_WORD_ADDR
  push wordAddr
  push (PARSE_WORD_ADDR + 1)
  push wordLen
  C_MOVE
  cStore wordLen wordAddr
  push wordAddr

/-- The copy loop of `C"`. -/
def cqGo (cAddr defNFA : Int) (rem : Nat) : Int → M Unit :=
  Nat.rec (motive := fun _ => Int → M Unit)
    (fun _ => mPure ())
    (fun _ ih index => do
      let char ← cFetch (cAddr + index)
      cStore char (defNFA + 2 + index)
      ih (index + 1))
    rem

/-- Source `C" ( -- c-addr )`; 34 is the char code of the double quote. -/
def C_QUOTE : M Unit := do
  push 34
  PARSE
  let len ← pop
  let cAddr ← pop
  ALIGN
  HERE
  let defNFA ← pop
  push (len + 2)
  ALLOT
  cStore 0 defNFA
  cStore len (defNFA + 1)
  cqGo cAddr defNFA len.toNat 0
  push (defNFA + 1)

/-- Source `S" ( -- c-addr u )` -/
def S_QUOTE : M Unit := do
  C_QUOTE
  COUNT

/-- Source `." ( -- )` -/
def DOT_QUOTE : M Unit := do
  C_QUOTE
  COUNT
  TYPE

/-- The character-compare loop of `COMPARE`. -/
def cmpGo (cAddr1 cAddr2 : Int) (rem : Nat) : Int → M Int :=
  Nat.rec (motive := fun _ => Int → M Int)
    (fun _ => mPure 0)
    (fun _ ih i => do
      let char1 ← cFetch (cAddr1 + i)
      let char2 ← cFetch (cAddr2 + i)
      if char1 ≠ char2 then mPure (if char1 < char2 then -1 else 1)
      else ih (i + 1))
    rem

/-- Source `COMPARE ( c-addr1 u1 c-addr2 u2 -- n )` -/
def COMPARE : M Unit := do
  let len2 ← pop
  let cAddr2 ← pop
  let len1 ← pop
  let cAddr1 ← pop
  let charCmp ← cmpGo cAddr1 cAddr2 (min len1.toNat len2.toNat) 0
  if charCmp = 0 then
    if len1 = len2 then push 0
    else push (if len1 < len2 then -1 else 1)
  else
    push charCmp

-- ---------------------------------------------------------------------
-- FIND
-- ---------------------------------------------------------------------

/-- The inner character-compare loop of `FIND`: `rem` characters left to
compare, `i` the current character index. -/
def namesMatch (chars : Tree) (currNFA nameAddr : Int) (rem : Nat) : Nat → Bool :=
  Nat.rec (motive := fun _ => Nat → Bool)
    (fun _ => true)
    (fun _ ih i =>
      if charAt chars (currNFA + 1 + i) = charAt chars (nameAddr + i) then
        ih (i + 1)
      else false)
    rem

/-- The Hidden bit of the flags byte of a header (`cFetch(nfa+31) & Hidden`). -/
def isHiddenEntry (chars : Tree) (nfa : Int) : Bool :=
  ((charAt chars (nfa + 31)).toNat &&& 2) ≠ 0

/-- The Immediate bit of the flags byte of a header. -/
def isImmediateEntry (chars : Tree) (nfa : Int) : Bool :=
  ((charAt chars (nfa + 31)).toNat &&& 1) ≠ 0

/-- One dictionary entry test of the `FIND` loop: length match, not hidden,
and a byte-by-byte name match. -/
def entryMatches (chars : Tree) (currNFA nameAddr nameLen : Int) : Bool :=
  (charAt chars currNFA = nameLen : Bool)
    && !(isHiddenEntry chars currNFA)
    && namesMatch chars currNFA nameAddr nameLen.toNat 0

/-- The link-chain walk of `FIND` (`while (currNFA > 0)`), as a pure
function of the two memory views.  The result is the pair the source pushes:
`(xt, 1)` or `(xt, -1)` on a hit, `(nameAddr - 1, 0)` on a miss; `none`
means the fuel ran out (a cyclic chain, which no execution here builds).
The alignment guard of `fetch` is omitted here: every header the
interpreter builds is 8-aligned. -/
def findWalk (chars cells : Tree) (nameAddr nameLen : Int) (fuel : Nat) : Int → Option (Int × Int) :=
  Nat.rec (motive := fun _ => Int → Option (Int × Int))
    (fun currNFA => if currNFA > 0 then none else some (nameAddr - 1, 0))
    (fun _ ih currNFA =>
      if currNFA > 0 then
        if entryMatches chars currNFA nameAddr nameLen then
          some (cellAt cells (currNFA + 40),
            if isImmediateEntry chars currNFA then 1 else -1)
        else
          ih (cellAt cells (currNFA + 32))
      else some (nameAddr - 1, 0))
    fuel

def FIND_FUEL : Nat := 1000

/-- Source `FIND ( c-addr -- c-addr 0 | xt 1 | xt -1 )` -/
def FIND : M Unit := do
  COUNT
  let nameLen ← pop
  let nameAddr ← pop
  let st ← getM
  match findWalk st.chars st.cells nameAddr nameLen FIND_FUEL
      (cellAt st.cells CURRENT_DEF_ADDR) with
  | none => throwErr ("FIND: dictionary chain too long")
  | some p => do
    push p.1
    push p.2

-- ---------------------------------------------------------------------
-- >NUMBER
-- ---------------------------------------------------------------------

/-- The digit loop of `>NUMBER` past any sign handling: `len` is the full
string length, the list holds the characters not yet visited, `i` is the
current index and `res` the accumulator.  Returns `(res, i, remaining)`;
on a non-digit the source pushes the literal `0`, so the first component
is `0` there. -/
def toNumberGo (len : Nat) (s : List Int) : Nat → Int → Int × Nat × Nat :=
  List.rec (motive := fun _ => Nat → Int → Int × Nat × Nat)
    (fun i res => (res, i, 0))
    (fun c _ ih i res =>
      if 47 < c ∧ c < 58 then
        ih (i + 1) (res + (c - 48) * (10 : Int) ^ (len - (i + 1)))
      else (0, i, len - i))
    s

/-- Source `>NUMBER` as a pure function of the character codes: the sign test of
the source runs only at `i === 0`, so it amounts to a case split on the
first character (45 is the minus sign, 43 the plus sign).  The source
multiplies by the sign only on the success path, but on failure the
accumulator it would multiply is `0`, so applying the sign uniformly is
the same function. -/
def toNumberList (s : List Int) : Int × Nat × Nat :=
  match s with
  | [] => (0, 0, 0)
  | c :: rest =>
    if c = 45 then
      let r := toNumberGo s.length rest 1 0
      (-r.1, r.2.1, r.2.2)
    else if c = 43 then
      toNumberGo s.length rest 1 0
    else
      toNumberGo s.length s 0 0

/-- How many halvings bring `m` under `2 ^ 53` (with enough fuel). -/
def flExp (fuel : Nat) : Nat → Nat :=
  Nat.rec (motive := fun _ => Nat → Nat)
    (fun _ => 0)
    (fun _ ih m => if m < 2 ^ 53 then 0 else ih (m / 2) + 1)
    fuel

/-- Rounds a nonnegative integer to the nearest integer with a 53-bit
significand, ties to the even significand: the value an IEEE-754
binary64 number holds after an arithmetic operation whose exact result
is that integer.  Every number the interpreter manipulates is an
integer-valued double far below the binary64 overflow threshold, so this
is the whole of the float semantics the embedding needs. -/
def flNat (m : Nat) : Nat :=
  if m < 2 ^ 53 then m
  else
    let e := flExp 1100 (m / 2)
    let q := m / 2 ^ (e + 1)
    let r := m % 2 ^ (e + 1)
    (if r < 2 ^ e then q else if 2 ^ e < r then q + 1
     else if q % 2 = 0 then q else q + 1) * 2 ^ (e + 1)

/-- Binary64 rounding of an exact integer result (rounding is symmetric
in the sign). -/
def fl (n : Int) : Int :=
  if n < 0 then -(flNat n.natAbs : Int) else (flNat n.natAbs : Int)

/-- The `>NUMBER` accumulation loop with the binary64 rounding of each
JS arithmetic operation made explicit: the source line
`res += (charCode - 48) * (10 ** (len - factor))` rounds the power, the
product and the running sum. -/
def toNumberGoFl (len : Nat) (s : List Int) : Nat → Int → Int × Nat × Nat :=
  List.rec (motive := fun _ => Nat → Int → Int × Nat × Nat)
    (fun i res => (res, i, 0))
    (fun c _ ih i res =>
      if 47 < c ∧ c < 58 then
        ih (i + 1) (fl (res + fl ((c - 48) * fl ((10 : Int) ^ (len - (i + 1))))))
      else (0, i, len - i))
    s

/-- Source `>NUMBER` over the character codes with binary64 arithmetic:
`toNumberList` with the rounded accumulation loop.  The final
`res * sign` of the source is a negation, which is exact. -/
def toNumberListFl (s : List Int) : Int × Nat × Nat :=
  match s with
  | [] => (0, 0, 0)
  | c :: rest =>
    if c = 45 then
      let r := toNumberGoFl s.length rest 1 0
      (-r.1, r.2.1, r.2.2)
    else if c = 43 then
      toNumberGoFl s.length rest 1 0
    else
      toNumberGoFl s.length s 0 0

/-- Reads `n` consecutive bytes of the char view. -/
def readChars (chars : Tree) (n : Nat) : Int → List Int :=
  Nat.rec (motive := fun _ => Int → List Int)
    (fun _ => [])
    (fun _ ih cAddr => charAt chars cAddr :: ih (cAddr + 1))
    n

/-- Source `>NUMBER ( n1 c-addr1 u1 -- n2 c-addr2 u2 )`: the loop reads only via
`cFetch`, so prefetching the `u1` bytes and running the pure function is
observationally the same. -/
def TO_NUMBER : M Unit := do
  let len ← pop
  let cAddr ← pop
  let _ ← pop
  let st ← getM
  let r := toNumberList (readChars st.chars len.toNat cAddr)
  push r.1
  push (cAddr + r.2.1)
  push r.2.2

-- ---------------------------------------------------------------------
-- >UPPERCASE, TICK, EXECUTE helpers
-- ---------------------------------------------------------------------

/-- The copy-and-fold loop of `>UPPERCASE`. -/
def upGo (fromAddr toAddr : Int) (rem : Nat) : Int → M Unit :=
  Nat.rec (motive := fun _ => Int → M Unit)
    (fun _ => mPure ())
    (fun _ ih index => do
      let charCode ← cFetch (fromAddr + index)
      let c := if 96 < charCode ∧ charCode < 123 then charCode - 32 else charCode
      cStore c (toAddr + index + 1)
      ih (index + 1))
    rem

/-- Source `>UPPERCASE ( c-addr1 u c-addr2 -- c-addr2 )` -/
def TO_UPPERCASE : M Unit := do
  let toAddr ← pop
  let length ← pop
  let fromAddr ← pop
  cStore length toAddr
  upGo fromAddr toAddr length.toNat 0
  push toAddr

/-- Source `' ( "<spaces>name" -- xt )` -/
def TICK : M Unit := do
  PARSE_NAME
  POD
  TO_UPPERCASE
  FIND
  let flag ← pop
  if flag = 0 then throwErr ("?") else mPure ()

/-- The execution-token encoding of `addWord`: `XT = 100000 * PFA + RID`. -/
def encodeXT (pfa rid : Int) : Int := 100000 * pfa + rid

/-- RID extraction of `EXECUTE`: `xt % 10000` (JS remainder). -/
def xtRTS (xt : Int) : Int := Int.tmod xt 10000

/-- PFA extraction of `EXECUTE`, `>BODY` and `TO`:
`Math.floor(xt / 100000)`. -/
def xtPFA (xt : Int) : Int := Int.fdiv xt 100000

-- ---------------------------------------------------------------------
-- Defining words
-- ---------------------------------------------------------------------

/-- Source `CREATE ( "<spaces>name" -- )` -/
def CREATE : M Unit := do
  PARSE_NAME
  let nameLen ← pop
  let nameAddr ← pop
  if nameLen = 0 then throwErr ("Empty name")
  else do
    ALIGN
    HERE
    let nfa ← pop
    push 48
    ALLOT
    push nameAddr
    push nameLen
    push nfa
    TO_UPPERCASE
    DROP
    cStore 0 (nfa + 31)
    let currentNFA ← fetch CURRENT_DEF_ADDR
    store currentNFA (nfa + 32)
    store nfa CURRENT_DEF_ADDR
    store (encodeXT (nfa + 48) NATIVE_XT_ADDR) (nfa + 40)

/-- Source `VARIABLE ( "<spaces>name" -- )` -/
def VARIABLE : M Unit := do
  CREATE
  push 0
  COMMA

/-- Source `CONSTANT ( x "<spaces>name" -- )` -/
def CONSTANT : M Unit := do
  let x ← pop
  CREATE
  HERE
  let pfa ← pop
  store (encodeXT pfa (NATIVE_XT_ADDR + 1)) (pfa - 8)
  push x
  COMMA

/-- Source `VALUE ( x "<spaces>name" -- )` -/
def VALUE : M Unit := do
  let x ← pop
  CREATE
  HERE
  let pfa ← pop
  store (encodeXT pfa (NATIVE_XT_ADDR + 2)) (pfa - 8)
  push x
  COMMA

/-- Source `TO ( i*x "<spaces>name" -- )` -/
def TO : M Unit := do
  let n ← pop
  TICK
  let xt ← pop
  store n (xtPFA xt)

/-- Source `COMPILE, ( xt -- )`: stores the xt, then a follow-up xt whose runtime
is `nextRTS` and whose PFA is its own address. -/
def COMPILE_COMMA : M Unit := do
  COMMA
  HERE
  let addr ← pop
  push (encodeXT addr (NATIVE_XT_ADDR + 5))
  COMMA

/-- Source `EVALUATE`: not implemented in the source. -/
def EVALUATE : M Unit := throwErr ("Not implemented")

/-- Source `>BODY ( xt -- a-addr )` -/
def TO_BODY : M Unit := do
  let xt ← pop
  push (xtPFA xt)

/-- Source `BL ( -- char )` -/
def BL : M Unit := push 32

/-- Source `CHAR ( "<spaces>name" -- char )` -/
def CHAR : M Unit := do
  BL
  WORD
  let cAddr ← pop
  let char ← cFetch (cAddr + 1)
  push char

/-- Source `CR ( -- )` -/
def CR : M Unit := write ("\n")

/-- Source `SPACE ( -- )` -/
def SPACE : M Unit := do
  BL
  EMIT

/-- Source `. ( n -- )`: JS stringifies an integral double without a decimal
point, matching `Int` printing. -/
def DOT : M Unit := do
  let n ← pop
  write (toString n)
  SPACE

/-- The loop of `.S`. -/
def dsGo (length : Int) (rem : Nat) : Int → M Unit :=
  Nat.rec (motive := fun _ => Int → M Unit)
    (fun _ => mPure ())
    (fun _ ih index => do
      push (length - index - 1)
      PICK
      DOT
      ih (index + 1))
    rem

/-- Source `.S ( -- )`; 60 116 111 112 are the char codes of the text after the
cells. -/
def DOT_S : M Unit := do
  DEPTH
  let length ← pop
  dsGo length length.toNat 0
  push 60
  EMIT
  push 116
  EMIT
  push 111
  EMIT
  push 112
  EMIT

/-- Source `STATE ( -- a-addr )` -/
def STATE : M Unit := push STATE_ADDR

/-- Source `] ( -- )` -/
def RIGHT_BRACKET : M Unit := do
  TRUE
  STATE
  STORE

/-- Source `[ ( -- )` -/
def LEFT_BRACKET : M Unit := do
  FALSE
  STATE
  STORE

/-- The input-buffer wipe loop shared by `QUIT` (all 256 bytes) and
`interpret` (the bytes past the copied source): stores the space character
at `INPUT_BUFFER_ADDR + index` for `rem` increasing indices. -/
def blankGo (rem : Nat) : Nat → M Unit :=
  Nat.rec (motive := fun _ => Nat → M Unit)
    (fun _ => mPure ())
    (fun _ ih index => do
      cStore 32 (INPUT_BUFFER_ADDR + (index : Int))
      ih (index + 1))
    rem

/-- Source `QUIT ( -- ) ( R: i*x -- )` -/
def QUIT : M Unit := do
  rEmpty
  blankGo 256 0
  store 0 INPUT_BUFFER_CHARS_ADDR
  store 0 TO_IN_ADDR
  LEFT_BRACKET

/-- Source `ABORT ( i*x -- ) ( R: j*x -- )` -/
def ABORT : M Unit := do
  empty
  QUIT

/-- Source `: ( "<spaces>name" -- )`: create, hide, rewrite the XT to the
`nestRTS` runtime, enter compilation state. -/
def COLON : M Unit := do
  ALIGN
  HERE
  let nfa ← pop
  CREATE
  let flag ← cFetch (nfa + 31)
  cStore ((flag.toNat ||| 2 : Nat) : Int) (nfa + 31)
  store (encodeXT (nfa + 48) (NATIVE_XT_ADDR + 3)) (nfa + 40)
  RIGHT_BRACKET

/-- Source `; ( -- )`: unhide, compile an `unNestRTS` xt, leave compilation
state.  `flag & ~Hidden` on a byte is a 32-bit mask in JS. -/
def SEMICOLON : M Unit := do
  let nfa ← fetch CURRENT_DEF_ADDR
  let flag ← cFetch (nfa + 31)
  cStore ((flag.toNat &&& 0xFFFFFFFD : Nat) : Int) (nfa + 31)
  HERE
  let addr ← pop
  push (encodeXT addr (NATIVE_XT_ADDR + 4))
  COMMA
  LEFT_BRACKET
  ALIGN

/-- Source `IMMEDIATE ( -- )` -/
def IMMEDIATE : M Unit := do
  let nfa ← fetch CURRENT_DEF_ADDR
  let flag ← cFetch (nfa + 31)
  cStore ((flag.toNat ||| 1 : Nat) : Int) (nfa + 31)

-- ---------------------------------------------------------------------
-- Runtimes and EXECUTE
-- ---------------------------------------------------------------------

/-- Runtime of `CREATE` and `VARIABLE` words. -/
def variableRTS (pfa : Int) : M Unit := push pfa

/-- Runtime of `CONSTANT` words. -/
def constantRTS (pfa : Int) : M Unit := do
  let x ← fetch pfa
  push x

/-- Runtime of `VALUE` words. -/
def valueRTS (pfa : Int) : M Unit := do
  let x ← fetch pfa
  push x

/-- Runtime ending a colon definition. -/
def unNestRTS (_pfa : Int) : M Unit := do
  R_FROM
  DROP

/-- Runtime chained after a compiled word: pushes the cell at its own
parameter-field address. -/
def nextRTS (pfa : Int) : M Unit := do
  let val ← fetch pfa
  push val

/-- Runtime entering a colon definition; `exec` is the recursive
`EXECUTE` call (at the remaining fuel). -/
def nestRTS (exec : M Unit) (pfa : Int) : M Unit := do
  let val ← fetch pfa
  push val
  DUP
  TO_R
  exec

/-- Runtime of a compiled literal; `exec` is the recursive `EXECUTE`
call. -/
def cellRTS (exec : M Unit) (addr : Int) : M Unit := do
  let val ← fetch addr
  push val
  let nextXT ← fetch (addr + 8)
  push nextXT
  exec

/-- The non-recursive branches of the `_wordMap` dispatch: index `i` is
the registration order of `addWords` (0 to 6 are the runtimes, 7 onward
the named words in source order).  Indices 3, 6 and 61 recurse through
`EXECUTE` and are dispatched there.  An index that was never registered is
the JS `TypeError` of calling `undefined`. -/
def execPlain (idx : Nat) (pfa : Int) : M Unit :=
  match idx with
  | 0 => variableRTS pfa
  | 1 => constantRTS pfa
  | 2 => valueRTS pfa
  | 4 => unNestRTS pfa
  | 5 => nextRTS pfa
  | 7 => SUM
  | 8 => MINUS
  | 9 => EQUALS
  | 10 => ZERO_EQUALS
  | 11 => TRUE
  | 12 => FALSE
  | 13 => DROP
  | 14 => DUP
  | 15 => QUESTION_DUP
  | 16 => PICK
  | 17 => OVER
  | 18 => SWAP
  | 19 => NIP
  | 20 => ROT
  | 21 => TUCK
  | 22 => DEPTH
  | 23 => R_FROM
  | 24 => TO_R
  | 25 => R_FETCH
  | 26 => HERE
  | 27 => POD
  | 28 => CREATE
  | 29 => VARIABLE
  | 30 => CONSTANT
  | 31 => VALUE
  | 32 => TO
  | 33 => CHARS
  | 34 => CELLS
  | 35 => ALIGNED
  | 36 => ALIGN
  | 37 => ALLOT
  | 38 => COMMA
  | 39 => FETCH
  | 40 => STORE
  | 41 => C_COMMA
  | 42 => C_FETCH
  | 43 => C_STORE
  | 44 => COUNT
  | 45 => EMIT
  | 46 => TYPE
  | 47 => TO_IN
  | 48 => SOURCE
  | 49 => PARSE
  | 50 => PARSE_NAME
  | 51 => WORD
  | 52 => S_QUOTE
  | 53 => C_QUOTE
  | 54 => DOT_QUOTE
  | 55 => COMPARE
  | 56 => FIND
  | 57 => C_MOVE
  | 58 => TO_NUMBER
  | 59 => TO_UPPERCASE
  | 60 => TICK
  | 62 => COMPILE_COMMA
  | 63 => EVALUATE
  | 64 => TO_BODY
  | 65 => CHAR
  | 66 => BL
  | 67 => CR
  | 68 => DOT
  | 69 => DOT_S
  | 70 => SPACE
  | 71 => ABORT
  | 72 => QUIT
  | 73 => STATE
  | 74 => RIGHT_BRACKET
  | 75 => LEFT_BRACKET
  | 76 => COLON
  | 77 => SEMICOLON
  | 78 => IMMEDIATE
  | _ => throwErr ("TypeError: _wordMap[rts] is not a function")

/-- Source `EXECUTE ( i*x xt -- j*x )` with a fuel bound on the nesting depth of
runtime calls (the source recurses on the host stack; no execution below
comes near the bound). -/
def EXECUTE (fuel : Nat) : M Unit :=
  Nat.rec (motive := fun _ => M Unit)
    (throwErr ("EXECUTE: out of fuel"))
    (fun _ exec => do
      let xt ← pop
      let rts := xtRTS xt
      let pfa := xtPFA xt
      if NATIVE_XT_ADDR ≤ rts ∧ rts < DSP_START_ADDR then
        match (rts - NATIVE_XT_ADDR).toNat with
        | 3 => nestRTS exec pfa
        | 6 => cellRTS exec pfa
        | 61 => exec
        | idx => execPlain idx pfa
      else
        throwErr ("Not an executable"))
    fuel

-- ---------------------------------------------------------------------
-- Dictionary construction and the outer interpreter
-- ---------------------------------------------------------------------

/-- The char codes of a string. -/
def codes (s : String) : List Nat := s.toList.map Char.toNat

/-- Stores consecutive bytes: the char-copy loops of `addWord` (name
characters) and `typeText`. -/
def storeBytes (l : List Nat) : Int → M Unit :=
  List.rec (motive := fun _ => Int → M Unit)
    (fun _ => mPure ())
    (fun c _ ih addr => do
      cStore (c : Int) addr
      ih (addr + 1))
    l

/-- Source `addWord`: registers one native word.  The runtime id is
`NATIVE_XT_ADDR` plus the number of entries already in the word map; the
map itself is the static dispatch `execPlain`/`EXECUTE`, so the model only
counts registrations. -/
def addWord (word : List Nat) (flags : Int) : M Unit := do
  ALIGN
  HERE
  let wordNFA ← pop
  push 48
  ALLOT
  cStore (word.length : Int) wordNFA
  storeBytes (word.take 30) (wordNFA + 1)
  cStore flags (wordNFA + 31)
  let currentNFA ← fetch CURRENT_DEF_ADDR
  store currentNFA (wordNFA + 32)
  store wordNFA CURRENT_DEF_ADDR
  let st ← getM
  let rts := NATIVE_XT_ADDR + (st.wordCount : Int)
  store (encodeXT (wordNFA + 48) rts) (wordNFA + 40)
  modifyM (fun m => { m with wordCount := m.wordCount + 1 })
  store 0 (wordNFA + 48)

/-- The registration list of `addWords`, in source order: the seven hidden
runtimes, then the named words.  The flags column is `0`, `Immediate` or
`Hidden` exactly as in the source; the quote-bearing names and the tick
are spelled as char-code lists. -/
def builtinDefs : List (List Nat × Int) :=
  [ ([], 2), ([], 2), ([], 2), ([], 2), ([], 2), ([], 2), ([], 2),
    (codes ("+"), 0),
    (codes ("-"), 0),
    (codes ("="), 0),
    (codes ("0="), 0),
    (codes ("TRUE"), 0),
    (codes ("FALSE"), 0),
    (codes ("DROP"), 0),
    (codes ("DUP"), 0),
    (codes ("?DUP"), 0),
    (codes ("PICK"), 0),
    (codes ("OVER"), 0),
    (codes ("SWAP"), 0),
    (codes ("NIP"), 0),
    (codes ("ROT"), 0),
    (codes ("TUCK"), 0),
    (codes ("DEPTH"), 0),
    (codes ("R>"), 0),
    (codes (">R"), 0),
    (codes ("R@"), 0),
    (codes ("HERE"), 0),
    (codes ("POD"), 0),
    (codes ("CREATE"), 0),
    (codes ("VARIABLE"), 0),
    (codes ("CONSTANT"), 0),
    (codes ("VALUE"), 0),
    (codes ("TO"), 0),
    (codes ("CHARS"), 0),
    (codes ("CELLS"), 0),
    (codes ("ALIGNED"), 0),
    (codes ("ALIGN"), 0),
    (codes ("ALLOT"), 0),
    (codes (","), 0),
    (codes ("@"), 0),
    (codes ("!"), 0),
    (codes ("C,"), 0),
    (codes ("C@"), 0),
    (codes ("C!"), 0),
    (codes ("COUNT"), 0),
    (codes ("EMIT"), 0),
    (codes ("TYPE"), 0),
    (codes (">IN"), 0),
    (codes ("SOURCE"), 0),
    (codes ("PARSE"), 0),
    (codes ("PARSE-NAME"), 0),
    (codes ("WORD"), 0),
    ([83, 34], 1),
    ([67, 34], 1),
    ([46, 34], 1),
    (codes ("COMPARE"), 0),
    (codes ("FIND"), 0),
    (codes ("CMOVE"), 0),
    (codes (">NUMBER"), 0),
    (codes (">UPPERCASE"), 0),
    ([39], 0),
    (codes ("EXECUTE"), 0),
    (codes ("COMPILE,"), 0),
    (codes ("EVALUATE"), 0),
    (codes (">BODY"), 0),
    (codes ("CHAR"), 0),
    (codes ("BL"), 0),
    (codes ("CR"), 0),
    (codes ("."), 0),
    (codes (".S"), 0),
    (codes ("SPACE"), 0),
    (codes ("ABORT"), 0),
    (codes ("QUIT"), 0),
    (codes ("STATE"), 0),
    (codes ("]"), 0),
    (codes ("["), 1),
    (codes (":"), 1),
    (codes (";"), 1),
    (codes ("IMMEDIATE"), 0) ]

def addWordsGo (l : List (List Nat × Int)) : M Unit :=
  List.rec (motive := fun _ => M Unit)
    (mPure ())
    (fun p _ ih => do
      addWord p.1 p.2
      ih)
    l

/-- Source `addWords`: declares the native words at construction time. -/
def addWords : M Unit := addWordsGo builtinDefs

/-- Source `typeText`: writes a string through the POD scratch area. -/
def typeText (text : String) : M Unit := do
  let len := (codes text).length
  POD
  let cAddr ← pop
  cStore (len : Int) cAddr
  storeBytes (codes text) (cAddr + 1)
  push cAddr
  COUNT
  TYPE

/-- Source `typeParsedWord`: types the counted string in the parsed-word buffer. -/
def typeParsedWord : M Unit := do
  push PARSE_WORD_ADDR
  COUNT
  TYPE

/-- Source `abort(message)` of the source: reset, then echo the parsed word and
the message. -/
def abort (message : String) : M Unit := do
  ABORT
  typeParsedWord
  SPACE
  typeText message
  CR

def EXEC_FUEL : Nat := 1000

/-- One iteration of the `while (true)` loop of `runInterpreter`, with a
fuel bound on the number of iterations (at most one token of the input
buffer per iteration; no execution below comes near the bound). -/
def interpLoop (n : Nat) : M Unit :=
  Nat.rec (motive := fun _ => M Unit)
    (throwErr ("interpreter loop fuel exhausted"))
    (fun _ ih => do
    let stateVal ← fetch STATE_ADDR
    let isCompiling : Bool := stateVal != 0
    PARSE_NAME
    DUP
    let nameLen ← pop
    if nameLen = 0 then do
      DROP
      DROP
      SPACE
      typeText ("ok")
      CR
    else do
      POD
      TO_UPPERCASE
      FIND
      let flag ← pop
      if flag ≠ 0 then do
        let caught ← attempt
          (if !isCompiling || (isCompiling && flag == 1) then EXECUTE EXEC_FUEL
           else COMPILE_COMMA)
        match caught with
        | none => ih
        | some e => abort e
      else do
        DROP
        push 0
        POD
        COUNT
        TO_NUMBER
        let remLen ← pop
        DROP
        if remLen ≠ 0 then do
          DROP
          abort ("?")
        else do
          if isCompiling then do
            let num ← pop
            HERE
            let addr ← pop
            push (encodeXT (addr + 8) (NATIVE_XT_ADDR + 6))
            COMMA
            push num
            COMMA
            ih
          else
            ih)
    n

/-- Source `runInterpreter`: echo the input buffer, then loop over the tokens. -/
def runInterpreter : M Unit := do
  SOURCE
  TYPE
  interpLoop 300

/-- Source `interpret(text)`: copy at most 254 chars plus a trailing space into
the input buffer, blank the rest, reset the cursor and char count, run. -/
def interpret (text : String) : M Unit := do
  let srcCode := (codes text).take 254 ++ [32]
  storeBytes srcCode INPUT_BUFFER_ADDR
  blankGo (256 - srcCode.length) srcCode.length
  store 0 TO_IN_ADDR
  store (srcCode.length : Int) INPUT_BUFFER_CHARS_ADDR
  runInterpreter

/-- The machine as built by the `forth` constructor before `addWords`:
zeroed memory, pointers at their region starts. -/
def forthInit : Machine :=
  ⟨Tree.nil, Tree.nil, DSP_START_ADDR, DATA_STACK_ADDR, RET_STACK_ADDR, 0, []⟩

/-- A fresh interpreter: `forth(write)` runs `addWords` at construction. -/
def forth0 : Machine := (addWords forthInit).2

/-- Runs one `interpret` call and keeps the resulting machine. -/
def runLine (st : Machine) (text : String) : Machine := (interpret text st).2

-- ---------------------------------------------------------------------
-- Concrete end-to-end runs
-- ---------------------------------------------------------------------

/-- The machine after a fresh interpreter runs the DEPTH scenario line. -/
def depthRun : Machine := runLine forth0 ("42 43 DEPTH")

/-- The body of `: fortytwo 21 DUP + ;` as the compiler lays it out, built
by running the very compile steps the outer interpreter performs, on a
machine whose data-space pointer starts at 20000: the number path of
`runInterpreter` for the literal 21 (a `cellRTS` xt pointing one cell
ahead, then the literal), `COMPILE,` for `DUP` and `+` (their xts carry
the `addWords` runtime ids 9814 and 9807; a native action ignores its
parameter field, so representative PFAs are used), and the `unNestRTS`
cell that `;` appends.  The final two steps execute the definition the
way `fortytwo` would: push its `nestRTS` xt and `EXECUTE`. -/
def fortytwoBodyRun : Except String Unit × Machine :=
  (do
    HERE
    let addr ← pop
    push (encodeXT (addr + 8) (NATIVE_XT_ADDR + 6))
    COMMA
    push 21
    COMMA
    push (encodeXT 13000 (NATIVE_XT_ADDR + 14))
    COMPILE_COMMA
    push (encodeXT 13100 (NATIVE_XT_ADDR + 7))
    COMPILE_COMMA
    HERE
    let addr2 ← pop
    push (encodeXT addr2 (NATIVE_XT_ADDR + 4))
    COMMA
    push (encodeXT 20000 (NATIVE_XT_ADDR + 3))
    EXECUTE 100)
    ⟨Tree.nil, Tree.nil, 20000, DATA_STACK_ADDR, RET_STACK_ADDR, 0, []⟩

/-- The token after an optional leading plus or minus sign. -/
def stripSign (s : List Int) : List Int :=
  match s with
  | [] => []
  | c :: rest => if c = 45 ∨ c = 43 then rest else s

/-- The value of a big-endian digit-character list, exactly as the
`>NUMBER` accumulator sums it. -/
def ofDigitsBE : List Int → Int
  | [] => 0
  | c :: rest => (c - 48) * (10 : Int) ^ rest.length + ofDigitsBE rest

/-- The decimal digit characters of a natural number, most significant
first ("0" for zero). -/
def natCodes (m : Nat) : List Int :=
  if m = 0 then [48]
  else List.map (fun d : Nat => (d : Int) + 48) (Nat.digits 10 m).reverse

/-- The decimal text of an integer: an optional minus sign, then the
digits. -/
def decimalCodes (n : Int) : List Int :=
  if n < 0 then 45 :: natCodes n.natAbs else natCodes n.toNat

/-- The list of name-field addresses reachable from a starting header by
following the link cells at offset `+32`, most recent first. -/
def chainFrom (cells : Tree) (fuel : Nat) : Int → List Int :=
  Nat.rec (motive := fun _ => Int → List Int)
    (fun _ => [])
    (fun _ ih nfa => if nfa > 0 then nfa :: ih (cellAt cells (nfa + 32)) else [])
    fuel

/-- Modelled from the spec wording of FIND: walk the link chain from the
`CURRENT_DEF_ADDR` head; the first (most recently defined) entry that
matches in length and name and is not Hidden wins, yielding its xt at
offset `+40` and `1` or `-1` by its Immediate bit; with no such entry the
result is the original counted-string address and `0`. -/
def findSpec (chars cells : Tree) (cAddr : Int) (fuel : Nat) : Int × Int :=
  match (chainFrom cells fuel (cellAt cells CURRENT_DEF_ADDR)).find?
      (fun nfa => entryMatches chars nfa (cAddr + 1) (charAt chars cAddr)) with
  | some nfa => (cellAt cells (nfa + 40), if isImmediateEntry chars nfa then 1 else -1)
  | none => (cAddr, 0)

/-- A two-entry dictionary for the FIND witness: the newer entry (the
chain head, at 10048) has the name FOO but carries the Hidden flag; the
older entry at 10000 has the same name, is visible, and its xt cell holds
`encodeXT 10048 9807`.  The query is the counted string FOO at 500. -/
def c4chars : Tree :=
  (((((((((((Tree.nil.set 10000 3).set 10001 70).set 10002 79).set 10003 79).set
    10048 3).set 10049 70).set 10050 79).set 10051 79).set 10079 2).set
    500 3).set 501 70).set 502 79 |>.set 503 79

def c4cells : Tree :=
  ((Tree.nil.set 12 10048).set 1260 10000).set 1255 1004809807

/-- A machine whose data stack already holds 32 cells. -/
def fullStackMachine : Machine :=
  ⟨Tree.nil, Tree.nil, DSP_START_ADDR, DATA_STACK_ADDR + 32 * 8, RET_STACK_ADDR, 0, []⟩

def abortDemo : Machine := ⟨Tree.nil, Tree.nil, 12000, 400, 700, 0, []⟩

def quitDemo : Machine := ⟨Tree.nil, Tree.nil, 10008, 400, 700, 0, []⟩

def quitDemo2 : Machine := ⟨Tree.nil, Tree.nil, 11000, 480, 700, 0, []⟩

-- ---------------------------------------------------------------------
-- Theorems
-- ---------------------------------------------------------------------

-- Unfolding equations for the eliminator-encoded map operations.

@[simp] theorem Tree.find_leaf (ks : List Bool) : Tree.nil.find ks = 0 := by
  cases ks <;> rfl

@[simp] theorem Tree.find_node_nil (l : Tree) (v : Option Int) (r : Tree) :
    (Tree.node l v r).find [] = v.getD 0 := rfl

@[simp] theorem Tree.find_node_cons (l : Tree) (v : Option Int) (r : Tree)
    (b : Bool) (bs : List Bool) :
    (Tree.node l v r).find (b :: bs) = if b then l.find bs else r.find bs := rfl

@[simp] theorem Tree.insert_leaf_nil (v : Int) :
    Tree.nil.insert [] v = Tree.node Tree.nil (some v) Tree.nil := rfl

@[simp] theorem Tree.insert_node_nil (l : Tree) (w : Option Int) (r : Tree) (v : Int) :
    (Tree.node l w r).insert [] v = Tree.node l (some v) r := rfl

@[simp] theorem Tree.insert_leaf_cons (b : Bool) (bs : List Bool) (v : Int) :
    Tree.nil.insert (b :: bs) v =
      if b then Tree.node (Tree.nil.insert bs v) none Tree.nil
      else Tree.node Tree.nil none (Tree.nil.insert bs v) := rfl

@[simp] theorem Tree.insert_node_cons (l : Tree) (w : Option Int) (r : Tree)
    (b : Bool) (bs : List Bool) (v : Int) :
    (Tree.node l w r).insert (b :: bs) v =
      if b then Tree.node (l.insert bs v) w r
      else Tree.node l w (r.insert bs v) := rfl

theorem Tree.find_insert (ks : List Bool) : ∀ (t : Tree) (v : Int) (ks' : List Bool),
    (t.insert ks v).find ks' = if ks' = ks then v else t.find ks' := by
  induction ks with
  | nil =>
    intro t v ks'
    cases t with
    | nil =>
      cases ks' with
      | nil => simp
      | cons b bs => cases b <;> simp
    | node l w r =>
      cases ks' with
      | nil => simp
      | cons b bs => cases b <;> simp
  | cons b bs ih =>
    intro t v ks'
    cases t with
    | nil =>
      cases ks' with
      | nil => cases b <;> simp
      | cons b' bs' =>
        cases b <;> cases b' <;> simp [ih]
    | node l w r =>
      cases ks' with
      | nil => cases b <;> simp
      | cons b' bs' =>
        cases b <;> cases b' <;> simp [ih]

@[simp] theorem keyBitsAux_zero (k : Nat) : keyBitsAux 0 k = [] := rfl

@[simp] theorem keyBitsAux_succ (n k : Nat) :
    keyBitsAux (n + 1) k = decide (k % 2 = 1) :: keyBitsAux n (k / 2) := rfl

theorem keyBitsAux_inj : ∀ (n k k' : Nat), k < 2 ^ n → k' < 2 ^ n →
    (keyBitsAux n k = keyBitsAux n k' ↔ k = k') := by
  intro n
  induction n with
  | zero =>
    intro k k' hk hk'
    simp only [pow_zero] at hk hk'
    simp
    omega
  | succ n ih =>
    intro k k' hk hk'
    have h2 : 2 ^ (n + 1) = 2 ^ n * 2 := pow_succ 2 n
    rw [keyBitsAux_succ, keyBitsAux_succ]
    simp only [List.cons.injEq, decide_eq_decide]
    rw [ih (k / 2) (k' / 2) (by omega) (by omega)]
    omega

/-- Distinct in-range indices have distinct bit encodings. -/
theorem keyBits_inj {k k' : Nat} (hk : k < 131072) (hk' : k' < 131072) :
    keyBits k = keyBits k' ↔ k = k' := by
  have h17 : (2 : Nat) ^ 17 = 131072 := by norm_num
  exact keyBitsAux_inj 17 k k' (by omega) (by omega)

theorem Tree.get_set (t : Tree) (k : Nat) (v : Int) (k' : Nat)
    (hk : k < 131072) (hk' : k' < 131072) :
    (t.set k v).get k' = if k' = k then v else t.get k' := by
  rw [Tree.set, Tree.get, Tree.find_insert]
  by_cases h : k' = k
  · simp [h]
  · have hne : keyBits k' ≠ keyBits k := fun hh => h ((keyBits_inj hk' hk).mp hh)
    simp [hne, h, Tree.get]

@[simp] theorem bind_def {α β : Type} (m : M α) (f : α → M β) :
    m >>= f = mBind m f := rfl

@[simp] theorem pure_def {α : Type} (a : α) : (pure a : M α) = mPure a := rfl

theorem mBind_ok {α β : Type} {m : M α} {f : α → M β} {st st' : Machine}
    {a : α} (h : m st = (Except.ok a, st')) : mBind m f st = f a st' := by
  simp [mBind, h]

theorem mBind_err {α β : Type} {m : M α} {f : α → M β} {st st' : Machine}
    {e : String} (h : m st = (Except.error e, st')) :
    mBind m f st = (Except.error e, st') := by
  simp [mBind, h]

@[simp] theorem writeCell_eq (st : Machine) (k : Nat) (x : Int) :
    writeCell st k x = (Except.ok (), { st with cells := st.cells.set k x }) := by
  rw [writeCell, Tree.set]
  exact ite_self _

@[simp] theorem writeChar_eq (st : Machine) (k : Nat) (x : Int) :
    writeChar st k x = (Except.ok (), { st with chars := st.chars.set k x }) := by
  rw [writeChar, Tree.set]
  exact ite_self _

set_option maxRecDepth 100000 in
set_option maxHeartbeats 0 in
/-- C2: the claim says `42 43 DEPTH` leaves 2 on top of a three-cell
stack.  The stack does hold three cells afterwards, but the `depth` helper
computes `(S - DSP_START_ADDR) >> 3` — it subtracts the data-space start
10000 instead of the data-stack base 376 — so with `S = 392` the value
pushed is `(392 - 10000) >> 3 = -1201`, not 2.  The test file asserts 2
for this very line, so the claim is right and the code wrong; this
theorem evaluates the code at the failing input. -/
theorem depth_line_pushes_wrong_base :
    (pop depthRun).1 = Except.ok (-1201) ∧
      depthRun.s = DATA_STACK_ADDR + 3 * 8 := ⟨rfl, rfl⟩

set_option maxRecDepth 100000 in
set_option maxHeartbeats 1000000 in
/-- C1: the claim says every compiled xt of the body runs in sequence and
the result is 42.  Executing the compiled body of `: fortytwo 21 DUP + ;`
leaves the two cells 21 21 on the data stack — `cellRTS` pushes the
literal and executes the next cell (`DUP`), but nothing ever executes the
`nextRTS` follow-up stored after a compiled primitive, so `+` and
`unNestRTS` never run.  The return stack still holds the marker `nestRTS`
pushed (one cell above its base), showing `unNestRTS` did not balance it.
The test file asserts 42 for this program, so the claim is right and the
code wrong. -/
theorem colon_def_runs_first_native_only :
    fortytwoBodyRun.1 = Except.ok () ∧
      fortytwoBodyRun.2.s = DATA_STACK_ADDR + 2 * 8 ∧
      cellAt fortytwoBodyRun.2.cells DATA_STACK_ADDR = 21 ∧
      cellAt fortytwoBodyRun.2.cells (DATA_STACK_ADDR + 8) = 21 ∧
      fortytwoBodyRun.2.r = RET_STACK_ADDR + 8 := ⟨rfl, rfl, rfl, rfl, rfl⟩

/-- C5: the claim says `: sq DUP * ;   6 sq` leaves 36, `*` being a
built-in.  No name `*` (char code 42) appears in the registration list of
`addWords`, and `>NUMBER` rejects the token `*` with remaining length 1,
so the outer interpreter aborts at `*` with the unknown-word diagnostic
instead of compiling a square. -/
theorem star_is_not_registered :
    codes ("*") ∉ builtinDefs.map Prod.fst ∧
      (toNumberList [42]).2.2 = 1 := by
  constructor
  · decide
  · rfl

-- ---------------------------------------------------------------------
-- C3: the execution-token encoding round-trips
-- ---------------------------------------------------------------------

/-- C3: decoding recovers both fields of a packed execution token: for
any parameter-field address below the 64000-byte memory size and any
runtime id in `[NATIVE_XT_ADDR, DSP_START_ADDR)`, the `EXECUTE` decoding
`floor(xt / 100000)` gives back the PFA and `xt % 10000` the RID, so the
RID field never overlaps the packed PFA. -/
theorem xt_roundtrip (pfa rid : Int) (h1 : 0 ≤ pfa) (h2 : pfa < MEMORY_SIZE)
    (h3 : NATIVE_XT_ADDR ≤ rid) (h4 : rid < DSP_START_ADDR) :
    xtPFA (encodeXT pfa rid) = pfa ∧ xtRTS (encodeXT pfa rid) = rid := by
  rw [NATIVE_XT_ADDR] at h3
  rw [DSP_START_ADDR] at h4
  rw [MEMORY_SIZE] at h2
  rw [xtPFA, xtRTS, encodeXT]
  constructor
  · rw [Int.fdiv_eq_ediv _ (by norm_num)]
    omega
  · rw [Int.tmod_eq_emod (by omega) (by norm_num)]
    omega

theorem xt_roundtrip_witness :
    xtPFA (encodeXT 10048 9803) = 10048 ∧ xtRTS (encodeXT 10048 9803) = 9803 :=
  xt_roundtrip 10048 9803 (by decide) (by decide) (by decide) (by decide)

-- ---------------------------------------------------------------------
-- C6 and C9: the behaviour of the pure TO_NUMBER core
-- ---------------------------------------------------------------------

@[simp] theorem toNumberGo_nil (len i : Nat) (res : Int) :
    toNumberGo len [] i res = (res, i, 0) := rfl

theorem toNumberGo_cons (len : Nat) (c : Int) (rest : List Int) (i : Nat) (res : Int) :
    toNumberGo len (c :: rest) i res =
      if 47 < c ∧ c < 58 then
        toNumberGo len rest (i + 1) (res + (c - 48) * (10 : Int) ^ (len - (i + 1)))
      else (0, i, len - i) := rfl

/-- The digit loop reports a non-zero remaining length whenever some
character of the remaining input is not a decimal digit. -/
theorem toNumberGo_fail : ∀ (ds : List Int) (len i : Nat) (res : Int),
    (∃ c ∈ ds, ¬(47 < c ∧ c < 58)) → i + ds.length = len →
    (toNumberGo len ds i res).2.2 ≠ 0 := by
  intro ds
  induction ds with
  | nil =>
    intro len i res h _
    simp at h
  | cons c rest ih =>
    intro len i res h hlen
    rw [toNumberGo_cons]
    by_cases hd : 47 < c ∧ c < 58
    · rw [if_pos hd]
      have hr : ∃ x ∈ rest, ¬(47 < x ∧ x < 58) := by
        rcases h with ⟨x, hx, hxp⟩
        rcases List.mem_cons.mp hx with h1 | h1
        · exact absurd hd (h1 ▸ hxp)
        · exact ⟨x, h1, hxp⟩
      apply ih _ _ _ hr
      simp only [List.length_cons] at hlen
      omega
    · rw [if_neg hd]
      simp only [List.length_cons] at hlen
      simp only [ne_eq]
      omega

/-- C6 counterexample: on the empty string the source runs the loop zero
times and pushes number 0, the unchanged address and remaining length 0 —
not a non-zero remaining length as the claim states. -/
theorem to_number_empty_remaining_zero : toNumberList [] = ((0 : Int), 0, 0) := rfl

/-- C6 (amended): for a NONEMPTY string containing a non-digit character
after the optional leading sign, `>NUMBER` reports a non-zero remaining
length; the empty string instead succeeds with value 0 and zero
remaining. -/
theorem to_number_nonempty_nondigit (s : List Int) (hne : s ≠ [])
    (h : ∃ c ∈ stripSign s, ¬(47 < c ∧ c < 58)) :
    (toNumberList s).2.2 ≠ 0 := by
  match s with
  | [] => exact absurd rfl hne
  | c :: rest =>
    rw [toNumberList]
    by_cases h45 : c = 45
    · have hs : stripSign (c :: rest) = rest := by simp [stripSign, h45]
      rw [hs] at h
      rw [if_pos h45]
      exact toNumberGo_fail rest _ 1 0 h (by simp only [List.length_cons]; omega)
    · by_cases h43 : c = 43
      · have hs : stripSign (c :: rest) = rest := by simp [stripSign, h43]
        rw [hs] at h
        rw [if_neg h45, if_pos h43]
        exact toNumberGo_fail rest _ 1 0 h (by simp only [List.length_cons]; omega)
      · have hs : stripSign (c :: rest) = c :: rest := by
          simp [stripSign, h45, h43]
        rw [hs] at h
        rw [if_neg h45, if_neg h43]
        exact toNumberGo_fail (c :: rest) _ 0 0 h (by simp)

theorem to_number_nonempty_nondigit_witness : (toNumberList [65]).2.2 ≠ 0 :=
  to_number_nonempty_nondigit [65] (by decide) ⟨65, by decide, by decide⟩

@[simp] theorem ofDigitsBE_nil : ofDigitsBE [] = 0 := rfl

@[simp] theorem ofDigitsBE_cons (c : Int) (rest : List Int) :
    ofDigitsBE (c :: rest) = (c - 48) * (10 : Int) ^ rest.length + ofDigitsBE rest := rfl

/-- On an all-digit tail the loop consumes everything and accumulates the
big-endian value. -/
theorem toNumberGo_digits : ∀ (ds : List Int) (len i : Nat) (res : Int),
    (∀ c ∈ ds, 47 < c ∧ c < 58) → i + ds.length = len →
    toNumberGo len ds i res = (res + ofDigitsBE ds, len, 0) := by
  intro ds
  induction ds with
  | nil =>
    intro len i res _ hlen
    simp only [toNumberGo_nil, ofDigitsBE, List.length_nil] at *
    rw [Prod.mk.injEq, Prod.mk.injEq]
    refine ⟨by ring, by omega, rfl⟩
  | cons c rest ih =>
    intro len i res hd hlen
    rw [toNumberGo_cons, if_pos (hd c (List.mem_cons_self c rest))]
    rw [ih len (i + 1) _ (fun x hx => hd x (List.mem_cons_of_mem c hx)) (by simp only [List.length_cons] at hlen; omega)]
    have he : len - (i + 1) = rest.length := by
      simp only [List.length_cons] at hlen
      omega
    rw [Prod.mk.injEq]
    refine ⟨?_, rfl⟩
    rw [he, ofDigitsBE]
    ring

theorem ofDigitsBE_append (xs : List Int) (c : Int) :
    ofDigitsBE (xs ++ [c]) = 10 * ofDigitsBE xs + (c - 48) := by
  induction xs with
  | nil => simp
  | cons x xs ih =>
    rw [List.cons_append, ofDigitsBE_cons, ofDigitsBE_cons, ih]
    have hl : (xs ++ [c]).length = xs.length + 1 := by simp
    rw [hl, pow_succ]
    ring

theorem ofDigitsBE_rev (L : List Nat) :
    ofDigitsBE (List.map (fun d : Nat => (d : Int) + 48) L.reverse) =
      ((Nat.ofDigits 10 L : Nat) : Int) := by
  induction L with
  | nil => simp
  | cons d L ih =>
    rw [List.reverse_cons, List.map_append, List.map_cons, List.map_nil,
      ofDigitsBE_append, ih, Nat.ofDigits_cons]
    push_cast
    ring

theorem natCodes_digits (m : Nat) : ∀ c ∈ natCodes m, 47 < c ∧ c < 58 := by
  intro c hc
  rw [natCodes] at hc
  by_cases hm : m = 0
  · rw [if_pos hm] at hc
    simp at hc
    omega
  · rw [if_neg hm] at hc
    rcases List.mem_map.mp hc with ⟨d, hd, rfl⟩
    have := Nat.digits_lt_base (by norm_num) (List.mem_reverse.mp hd)
    omega

theorem natCodes_value (m : Nat) : ofDigitsBE (natCodes m) = (m : Int) := by
  rw [natCodes]
  by_cases hm : m = 0
  · rw [if_pos hm, hm]
    simp [ofDigitsBE]
  · rw [if_neg hm, ofDigitsBE_rev, Nat.ofDigits_digits]

theorem natCodes_ne_nil (m : Nat) : natCodes m ≠ [] := by
  rw [natCodes]
  by_cases hm : m = 0
  · simp [hm]
  · rw [if_neg hm]
    simp [Nat.digits_ne_nil_iff_ne_zero.mpr hm]

/-- The exact-arithmetic accumulation round-trips on the decimal text of
any integer: all characters are consumed, the remaining length is zero
and the value is the integer itself.  The binary64 rounding the source
really performs is layered on top of this below. -/
theorem to_number_roundtrip (n : Int) :
    toNumberList (decimalCodes n) = (n, (decimalCodes n).length, 0) := by
  by_cases hn : n < 0
  · rw [decimalCodes, if_pos hn, toNumberList]
    rw [if_pos rfl]
    rw [toNumberGo_digits (natCodes n.natAbs) _ 1 0 (natCodes_digits _)
      (by simp only [List.length_cons]; omega)]
    rw [natCodes_value]
    rw [Prod.mk.injEq, Prod.mk.injEq]
    refine ⟨by omega, by simp, rfl⟩
  · rw [decimalCodes, if_neg hn]
    obtain ⟨c, rest, heq⟩ := List.exists_cons_of_ne_nil (natCodes_ne_nil n.toNat)
    have hc : 47 < c ∧ c < 58 := natCodes_digits n.toNat c (heq ▸ List.mem_cons_self c rest)
    rw [heq, toNumberList]
    rw [if_neg (by omega), if_neg (by omega)]
    rw [toNumberGo_digits (c :: rest) ((c :: rest).length) 0 0
      (fun x hx => natCodes_digits n.toNat x (heq ▸ hx)) (by omega)]
    rw [← heq, natCodes_value]
    rw [Prod.mk.injEq]
    refine ⟨by omega, rfl⟩

@[simp] theorem toNumberGoFl_nil (len i : Nat) (res : Int) :
    toNumberGoFl len [] i res = (res, i, 0) := rfl

theorem toNumberGoFl_cons (len : Nat) (c : Int) (rest : List Int) (i : Nat) (res : Int) :
    toNumberGoFl len (c :: rest) i res =
      if 47 < c ∧ c < 58 then
        toNumberGoFl len rest (i + 1)
          (fl (res + fl ((c - 48) * fl ((10 : Int) ^ (len - (i + 1))))))
      else (0, i, len - i) := rfl

theorem flNat_small (m : Nat) (h : m < 2 ^ 53) : flNat m = m := by
  rw [flNat, if_pos h]

/-- Integers below the 53-bit significand bound are exactly
representable: rounding fixes them. -/
theorem fl_small (n : Int) (h1 : -(2 ^ 53) < n) (h2 : n < 2 ^ 53) : fl n = n := by
  have hp : (2 : Int) ^ 53 = 9007199254740992 := by norm_num
  have hpn : (2 : Nat) ^ 53 = 9007199254740992 := by norm_num
  have hb : n.natAbs < 2 ^ 53 := by
    rw [hpn]
    rw [hp] at h1 h2
    omega
  rw [fl]
  by_cases hn : n < 0
  · rw [if_pos hn, flNat_small _ hb]
    omega
  · rw [if_neg hn, flNat_small _ hb]
    omega

/-- A string of digit characters has a nonnegative value. -/
theorem ofDigitsBE_nonneg : ∀ s : List Int, (∀ c ∈ s, 47 < c ∧ c < 58) →
    0 ≤ ofDigitsBE s := by
  intro s
  induction s with
  | nil => intro _; rw [ofDigitsBE_nil]
  | cons c rest ih =>
    intro h
    rw [ofDigitsBE_cons]
    have hc := h c (List.mem_cons_self c rest)
    have hr := ih (fun x hx => h x (List.mem_cons_of_mem c hx))
    have hp : (0 : Int) < 10 ^ rest.length := pow_pos (by norm_num) _
    have ht : 0 ≤ (c - 48) * 10 ^ rest.length := mul_nonneg (by omega) (le_of_lt hp)
    linarith

/-- On an all-digit string whose exact value stays below `2 ^ 53` the
rounded accumulation is exact: every power, product and partial sum that
the loop forms is an integer below `2 ^ 53`, which `fl` fixes. -/
theorem toNumberGoFl_eq_exact : ∀ (s : List Int), (∀ c ∈ s, 47 < c ∧ c < 58) →
    ∀ (len i : Nat) (res : Int), 0 ≤ res → i + s.length = len →
    res + ofDigitsBE s < 2 ^ 53 →
    toNumberGoFl len s i res = toNumberGo len s i res := by
  intro s
  induction s with
  | nil => intro _ len i res _ _ _; rfl
  | cons c rest ih =>
    intro h len i res hres hlen hbound
    have h2p : (0 : Int) < 2 ^ 53 := by positivity
    have hc := h c (List.mem_cons_self c rest)
    have hrest := fun x hx => h x (List.mem_cons_of_mem c hx)
    have hrnn : 0 ≤ ofDigitsBE rest := ofDigitsBE_nonneg rest hrest
    have hp : (0 : Int) < 10 ^ rest.length := pow_pos (by norm_num) _
    have he : len - (i + 1) = rest.length := by
      simp only [List.length_cons] at hlen
      omega
    have hof : ofDigitsBE (c :: rest) = (c - 48) * 10 ^ rest.length + ofDigitsBE rest :=
      ofDigitsBE_cons c rest
    have htnn : 0 ≤ (c - 48) * 10 ^ rest.length := mul_nonneg (by omega) (le_of_lt hp)
    have htle : (c - 48) * 10 ^ rest.length ≤ res + ofDigitsBE (c :: rest) := by
      rw [hof]
      linarith
    have hflt : fl ((c - 48) * fl ((10 : Int) ^ rest.length)) =
        (c - 48) * 10 ^ rest.length := by
      by_cases h48 : c = 48
      · rw [h48]
        have hz : ((48 : Int) - 48) = 0 := by norm_num
        rw [hz]
        rw [zero_mul, zero_mul]
        exact fl_small 0 (by linarith) (by linarith)
      · have hone : (1 : Int) ≤ c - 48 := by omega
        have hterm : (10 : Int) ^ rest.length ≤ (c - 48) * 10 ^ rest.length :=
          le_mul_of_one_le_left (le_of_lt hp) hone
        have hplt : (10 : Int) ^ rest.length < 2 ^ 53 := by linarith
        rw [fl_small ((10 : Int) ^ rest.length) (by linarith) hplt]
        exact fl_small _ (by linarith) (by linarith)
    have hsum : fl (res + (c - 48) * 10 ^ rest.length) =
        res + (c - 48) * 10 ^ rest.length := by
      refine fl_small _ (by linarith) ?_
      rw [hof] at hbound
      linarith
    rw [toNumberGoFl_cons, toNumberGo_cons, if_pos hc, if_pos hc, he, hflt, hsum]
    refine ih hrest len (i + 1) _ (by linarith) ?_ ?_
    · simp only [List.length_cons] at hlen
      omega
    · rw [hof] at hbound
      linarith

/-- Within the exact range the rounded and the exact `>NUMBER` agree on
any decimal text. -/
theorem toNumberListFl_eq_exact (n : Int) (h1 : -(2 ^ 53) < n) (h2 : n < 2 ^ 53) :
    toNumberListFl (decimalCodes n) = toNumberList (decimalCodes n) := by
  have hp : (2 : Int) ^ 53 = 9007199254740992 := by norm_num
  by_cases hn : n < 0
  · rw [decimalCodes, if_pos hn, toNumberListFl, toNumberList, if_pos rfl, if_pos rfl]
    rw [toNumberGoFl_eq_exact (natCodes n.natAbs) (natCodes_digits _) _ 1 0 le_rfl
      (by simp only [List.length_cons]; omega)
      (by rw [natCodes_value, hp]; rw [hp] at h1 h2; omega)]
  · rw [decimalCodes, if_neg hn]
    obtain ⟨c, rest, heq⟩ := List.exists_cons_of_ne_nil (natCodes_ne_nil n.toNat)
    have hc : 47 < c ∧ c < 58 := natCodes_digits n.toNat c (heq ▸ List.mem_cons_self c rest)
    rw [heq, toNumberListFl, toNumberList]
    rw [if_neg (by omega), if_neg (by omega), if_neg (by omega), if_neg (by omega)]
    rw [toNumberGoFl_eq_exact (c :: rest)
      (fun x hx => natCodes_digits n.toNat x (heq ▸ hx)) _ 0 0 le_rfl (by omega)
      (by rw [← heq, natCodes_value, hp]; rw [hp] at h1 h2; omega)]

/-- C9 (amended): on the decimal text of an integer of magnitude below
`2 ^ 53` the rounded accumulation of the source consumes every character
and returns exactly that integer, every partial sum being exactly
representable. -/
theorem to_number_roundtrip_small (n : Int) (h1 : -(2 ^ 53) < n) (h2 : n < 2 ^ 53) :
    toNumberListFl (decimalCodes n) = (n, (decimalCodes n).length, 0) := by
  rw [toNumberListFl_eq_exact n h1 h2, to_number_roundtrip n]

theorem to_number_roundtrip_small_witness :
    (-(2 ^ 53) < (-9007199254740991 : Int) ∧ (-9007199254740991 : Int) < 2 ^ 53) ∧
    toNumberListFl (decimalCodes (-9007199254740991)) =
      (-9007199254740991, (decimalCodes (-9007199254740991)).length, 0) :=
  ⟨⟨by decide, by decide⟩,
   to_number_roundtrip_small (-9007199254740991) (by decide) (by decide)⟩

set_option maxRecDepth 10000 in
/-- Counterexample to C9 as claimed: 18014398509481996 is exactly
representable in binary64 (`fl` fixes it), yet the rounded accumulation
parses its 17-character decimal text to 18014398509482000 — two partial
sums beyond `2 ^ 53` round — so `>NUMBER` does not round-trip on every
exactly representable integer. -/
theorem to_number_rounds_large_double :
    fl 18014398509481996 = 18014398509481996 ∧
    decimalCodes 18014398509481996 =
      [49, 56, 48, 49, 52, 51, 57, 56, 53, 48, 57, 52, 56, 49, 57, 57, 54] ∧
    toNumberListFl [49, 56, 48, 49, 52, 51, 57, 56, 53, 48, 57, 52, 56, 49, 57, 57, 54] =
      (18014398509482000, 17, 0) ∧
    (18014398509482000 : Int) ≠ 18014398509481996 := by
  refine ⟨by decide, ?_, by decide, by decide⟩
  rw [decimalCodes, if_neg (by decide), natCodes, if_neg (by decide)]
  rw [show (Int.toNat 18014398509481996) = 18014398509481996 from rfl]
  rw [show Nat.digits 10 18014398509481996 =
    [6, 9, 9, 1, 8, 4, 9, 0, 5, 8, 9, 3, 4, 1, 0, 8, 1] from by simp [Nat.digits_def']]
  rfl

-- ---------------------------------------------------------------------
-- C4: FIND against its specification
-- ---------------------------------------------------------------------

@[simp] theorem findWalk_zero (chars cells : Tree) (nameAddr nameLen : Int) (nfa : Int) :
    findWalk chars cells nameAddr nameLen 0 nfa =
      if nfa > 0 then none else some (nameAddr - 1, 0) := rfl

theorem findWalk_succ (chars cells : Tree) (nameAddr nameLen : Int) (fuel : Nat) (nfa : Int) :
    findWalk chars cells nameAddr nameLen (fuel + 1) nfa =
      if nfa > 0 then
        if entryMatches chars nfa nameAddr nameLen then
          some (cellAt cells (nfa + 40),
            if isImmediateEntry chars nfa then 1 else -1)
        else findWalk chars cells nameAddr nameLen fuel (cellAt cells (nfa + 32))
      else some (nameAddr - 1, 0) := rfl

@[simp] theorem chainFrom_zero (cells : Tree) (nfa : Int) : chainFrom cells 0 nfa = [] := rfl

theorem chainFrom_succ (cells : Tree) (fuel : Nat) (nfa : Int) :
    chainFrom cells (fuel + 1) nfa =
      if nfa > 0 then nfa :: chainFrom cells fuel (cellAt cells (nfa + 32)) else [] := rfl

/-- The source walk, started anywhere, agrees with the first-match view
of the chain whenever its fuel suffices. -/
theorem findWalk_eq_chainSearch (chars cells : Tree) (nameAddr nameLen : Int) :
    ∀ (fuel : Nat) (nfa : Int) (r : Int × Int),
      findWalk chars cells nameAddr nameLen fuel nfa = some r →
      r = match (chainFrom cells fuel nfa).find?
            (fun k => entryMatches chars k nameAddr nameLen) with
          | some k => (cellAt cells (k + 40), if isImmediateEntry chars k then 1 else -1)
          | none => (nameAddr - 1, 0) := by
  intro fuel
  induction fuel with
  | zero =>
    intro nfa r h
    rw [findWalk_zero] at h
    by_cases hn : nfa > 0
    · rw [if_pos hn] at h
      exact absurd h (by simp)
    · rw [if_neg hn] at h
      simp only [Option.some.injEq] at h
      simp [← h]
  | succ fuel ih =>
    intro nfa r h
    rw [findWalk_succ] at h
    rw [chainFrom_succ]
    by_cases hn : nfa > 0
    · rw [if_pos hn] at h
      rw [if_pos hn]
      by_cases hm : entryMatches chars nfa nameAddr nameLen
      · rw [if_pos hm] at h
        simp only [Option.some.injEq] at h
        simp [List.find?, hm, ← h]
      · rw [if_neg hm] at h
        rw [List.find?_cons_of_neg _ (by simp [hm])]
        exact ih _ r h
    · rw [if_neg hn] at h
      rw [if_neg hn]
      simp only [Option.some.injEq] at h
      simp [← h]

/-- C4: whenever the `FIND` link walk terminates (its fuel covers the
chain), its result is exactly the specification: chain from
`CURRENT_DEF_ADDR`, hidden entries never returned, the most recent
matching entry wins with its xt and `+1`/`-1` by the Immediate flag, and
a miss returns the original counted-string address with 0. -/
theorem FIND_follows_spec (chars cells : Tree) (cAddr : Int) (fuel : Nat) (r : Int × Int)
    (h : findWalk chars cells (cAddr + 1) (charAt chars cAddr) fuel
      (cellAt cells CURRENT_DEF_ADDR) = some r) :
    r = findSpec chars cells cAddr fuel := by
  rw [findSpec]
  rw [findWalk_eq_chainSearch chars cells (cAddr + 1) (charAt chars cAddr) fuel _ r h]
  have : cAddr + 1 - 1 = cAddr := by ring
  rw [this]

theorem FIND_follows_spec_witness :
    ((1004809807 : Int), (-1 : Int)) = findSpec c4chars c4cells 500 10 :=
  FIND_follows_spec c4chars c4cells 500 10 (1004809807, -1) (by decide)

-- ---------------------------------------------------------------------
-- Run lemmas for the machine monad
-- ---------------------------------------------------------------------

@[simp] theorem getM_run (st : Machine) : getM st = (Except.ok st, st) := rfl

@[simp] theorem modifyM_run (f : Machine → Machine) (st : Machine) :
    modifyM f st = (Except.ok (), f st) := rfl

@[simp] theorem mPure_run {α : Type} (a : α) (st : Machine) :
    mPure a st = (Except.ok a, st) := rfl

theorem mBind_run {α β : Type} (m : M α) (f : α → M β) (st : Machine) :
    mBind m f st =
      (match m st with
       | (Except.ok a, st1) => f a st1
       | (Except.error e, st1) => (Except.error e, st1)) := rfl

theorem store_ok (x aAddr : Int) (st : Machine)
    (h1 : ¬(aAddr = CURRENT_DEF_ADDR ∧ (x < DSP_START_ADDR ∨ x > MEMORY_SIZE) ∧ x ≠ 0))
    (h2 : Int.tmod aAddr 8 = 0) :
    store x aAddr st =
      (Except.ok (), { st with cells := st.cells.set ((Int.fdiv aAddr 8).toNat) x }) := by
  rw [store, if_neg h1, if_neg (by simp [h2]), writeCell_eq]

theorem fetch_ok (aAddr : Int) (st : Machine) (h : Int.tmod aAddr 8 = 0) :
    fetch aAddr st = (Except.ok (cellAt st.cells aAddr), st) := by
  rw [fetch, if_neg (by simp [h])]

theorem cStore_ok (char cAddr : Int) (st : Machine) (h : cAddr ≠ CURRENT_DEF_ADDR) :
    cStore char cAddr st =
      (Except.ok (), { st with chars := st.chars.set cAddr.toNat (Int.emod char 256) }) := by
  rw [cStore, if_neg h, writeChar_eq]

theorem LEFT_BRACKET_eq :
    LEFT_BRACKET = mBind FALSE (fun _ => mBind STATE (fun _ => STORE)) := rfl

theorem pop_eq :
    pop = mBind getM (fun st0 =>
      if st0.s = DATA_STACK_ADDR then throwErr ("Stack underflow")
      else mBind (modifyM (fun m => { m with s := m.s - 8 }))
        (fun _ => mBind getM (fun st1 => fetch st1.s))) := rfl

theorem pop_ok (st : Machine) (h1 : st.s ≠ DATA_STACK_ADDR)
    (h2 : Int.tmod (st.s - 8) 8 = 0) :
    pop st = (Except.ok (cellAt st.cells (st.s - 8)), { st with s := st.s - 8 }) := by
  rw [pop_eq]
  simp only [mBind_run, getM_run]
  rw [if_neg h1]
  simp only [mBind_run, modifyM_run, getM_run]
  rw [fetch_ok _ _ (by exact h2)]

theorem STORE_eq :
    STORE = mBind pop (fun aAddr => mBind pop (fun x => store x aAddr)) := rfl

theorem push_eq (x : Int) :
    push x = mBind getM (fun st =>
      mBind (store x st.s) (fun _ => modifyM (fun m => { m with s := m.s + 8 }))) := rfl

-- ---------------------------------------------------------------------
-- C10: push performs no overflow check
-- ---------------------------------------------------------------------

/-- C10: with the data-stack pointer at the end of the 32-cell region
(`S = 376 + 32 * 8 = 632`), a further `push` raises no error: it stores
the value at address 632 — the first cell of the return-stack region —
and moves `S` past it. -/
theorem push_past_stack_region (st : Machine) (v : Int)
    (h : st.s = DATA_STACK_ADDR + 32 * 8) :
    ∃ st', push v st = (Except.ok (), st') ∧
      cellAt st'.cells RET_STACK_ADDR = v ∧
      st'.s = RET_STACK_ADDR + 8 ∧
      st'.chars = st.chars ∧ st'.ds = st.ds ∧ st'.r = st.r := by
  have hs : st.s = 632 := by rw [h]; rfl
  refine ⟨{ st with cells := st.cells.set 79 v, s := st.s + 8 }, ?_, ?_, ?_, rfl, rfl, rfl⟩
  · rw [push_eq]
    simp only [mBind_run, getM_run]
    rw [store_ok v st.s st (by rw [hs]; intro hc; exact absurd hc.1 (by decide)) (by rw [hs]; decide)]
    simp only [modifyM_run]
    rw [hs]
    rfl
  · show (st.cells.set 79 v).get ((Int.fdiv RET_STACK_ADDR 8).toNat) = v
    rw [show (Int.fdiv RET_STACK_ADDR 8).toNat = 79 from rfl]
    rw [Tree.get_set _ _ _ _ (by omega) (by omega)]
    simp
  · show st.s + 8 = RET_STACK_ADDR + 8
    rw [hs]
    rfl

theorem push_past_stack_region_witness :
    ∃ st', push 7 fullStackMachine = (Except.ok (), st') ∧
      cellAt st'.cells RET_STACK_ADDR = 7 ∧
      st'.s = RET_STACK_ADDR + 8 ∧
      st'.chars = fullStackMachine.chars ∧ st'.ds = fullStackMachine.ds ∧
      st'.r = fullStackMachine.r :=
  push_past_stack_region fullStackMachine 7 rfl

-- ---------------------------------------------------------------------
-- C7 and C8: what ABORT and QUIT reset and what they preserve
-- ---------------------------------------------------------------------

@[simp] theorem rEmpty_run (st : Machine) :
    rEmpty st = (Except.ok (), { st with r := RET_STACK_ADDR }) := rfl

@[simp] theorem empty_run (st : Machine) :
    empty st = (Except.ok (), { st with s := DATA_STACK_ADDR }) := rfl

@[simp] theorem blankGo_zero (index : Nat) : blankGo 0 index = mPure () := rfl

theorem blankGo_succ (rem index : Nat) :
    blankGo (rem + 1) index =
      mBind (cStore 32 (INPUT_BUFFER_ADDR + (index : Int)))
        (fun _ => blankGo rem (index + 1)) := rfl

/-- The wipe loop succeeds, touches only the char view, and changes only
the bytes it writes. -/
theorem blankGo_spec : ∀ (rem index : Nat) (st : Machine), index + rem ≤ 256 →
    ∃ ch, blankGo rem index st = (Except.ok (), { st with chars := ch }) ∧
      ∀ c : Nat, c < 131072 → (c < 120 + index ∨ 120 + index + rem ≤ c) →
        ch.get c = st.chars.get c := by
  intro rem
  induction rem with
  | zero =>
    intro index st _
    exact ⟨st.chars, rfl, fun c _ _ => rfl⟩
  | succ rem ih =>
    intro index st hb
    rw [blankGo_succ, mBind_run]
    rw [cStore_ok 32 _ st (by rw [INPUT_BUFFER_ADDR, CURRENT_DEF_ADDR]; omega)]
    have hkey : ((INPUT_BUFFER_ADDR + (index : Int))).toNat = 120 + index := by
      rw [INPUT_BUFFER_ADDR]; omega
    rw [hkey]
    obtain ⟨ch, hrun, hfr⟩ := ih (index + 1)
      { st with chars := st.chars.set (120 + index) (Int.emod 32 256) } (by omega)
    refine ⟨ch, hrun, ?_⟩
    intro c hc hcr
    rw [hfr c hc (by omega)]
    show (st.chars.set (120 + index) (Int.emod 32 256)).get c = st.chars.get c
    rw [Tree.get_set _ _ _ _ (by omega) hc, if_neg (by omega)]

/-- Source `[` on a machine whose stack pointer is in the stack discipline:
two cells above the live stack top are clobbered by the transient pushes,
the `STATE` cell is cleared, and the stack pointer is back where it
started. -/
theorem LEFT_BRACKET_run (st : Machine) (h1 : DATA_STACK_ADDR ≤ st.s)
    (h2 : st.s < MEMORY_SIZE) (h3 : Int.tmod st.s 8 = 0) :
    LEFT_BRACKET st = (Except.ok (),
      { st with cells := ((st.cells.set ((Int.fdiv st.s 8).toNat) 0).set
          ((Int.fdiv st.s 8).toNat + 1) 72).set 9 0 }) := by
  rw [DATA_STACK_ADDR] at h1
  rw [MEMORY_SIZE] at h2
  have hpos : (0 : Int) ≤ st.s := by omega
  have hmod : st.s % 8 = 0 := by
    rw [← Int.tmod_eq_emod hpos (by norm_num)]
    exact h3
  obtain ⟨q, hq⟩ : ∃ q : Int, st.s = 8 * q := ⟨st.s / 8, by omega⟩
  have hq47 : 47 ≤ q := by omega
  have hq8k : q < 8000 := by omega
  have hfd : Int.fdiv st.s 8 = q := by
    rw [Int.fdiv_eq_ediv _ (by norm_num)]
    omega
  have hfd8 : Int.fdiv (st.s + 8) 8 = q + 1 := by
    rw [Int.fdiv_eq_ediv _ (by norm_num)]
    omega
  have htm8 : Int.tmod (st.s + 8) 8 = 0 := by
    rw [Int.tmod_eq_emod (by omega) (by norm_num)]
    omega
  rw [LEFT_BRACKET_eq, show FALSE = push 0 from rfl, push_eq]
  simp only [mBind_run, getM_run]
  rw [store_ok 0 st.s st (by intro hc; exact absurd hc.2.2 (by simp)) h3]
  simp only [modifyM_run]
  rw [show STATE = push STATE_ADDR from rfl, push_eq]
  simp only [mBind_run, getM_run]
  rw [store_ok STATE_ADDR (st.s + 8) _ (by rw [STATE_ADDR, CURRENT_DEF_ADDR]; intro hc; omega) htm8]
  simp only [modifyM_run]
  rw [STORE_eq]
  simp only [mBind_run]
  have hts : ((q : Int) + 1).toNat = q.toNat + 1 := by omega
  have hv1 : cellAt (((st.cells.set (Int.fdiv st.s 8).toNat 0).set
      (Int.fdiv (st.s + 8) 8).toNat STATE_ADDR)) (st.s + 8 + 8 - 8) = 72 := by
    rw [cellAt]
    rw [show st.s + 8 + 8 - 8 = st.s + 8 by ring]
    rw [hfd8, hfd, hts]
    rw [Tree.get_set _ _ _ _ (by omega) (by omega), if_pos rfl]
    rfl
  rw [pop_ok _ (by show st.s + 8 + 8 ≠ DATA_STACK_ADDR; rw [DATA_STACK_ADDR]; omega)
    (by show Int.tmod (st.s + 8 + 8 - 8) 8 = 0
        rw [show st.s + 8 + 8 - 8 = st.s + 8 by ring]; exact htm8)]
  simp only [mBind_run]
  have hv2 : cellAt (((st.cells.set (Int.fdiv st.s 8).toNat 0).set
      (Int.fdiv (st.s + 8) 8).toNat STATE_ADDR)) (st.s + 8 + 8 - 8 - 8) = 0 := by
    rw [cellAt]
    rw [show st.s + 8 + 8 - 8 - 8 = st.s by ring]
    rw [hfd8, hfd, hts]
    rw [Tree.get_set _ _ _ _ (by omega) (by omega), if_neg (by omega)]
    rw [Tree.get_set _ _ _ _ (by omega) (by omega), if_pos rfl]
  rw [pop_ok _
    (by show st.s + 8 + 8 - 8 ≠ DATA_STACK_ADDR
        rw [show st.s + 8 + 8 - 8 = st.s + 8 by ring, DATA_STACK_ADDR]; omega)
    (by show Int.tmod (st.s + 8 + 8 - 8 - 8) 8 = 0
        rw [show st.s + 8 + 8 - 8 - 8 = st.s by ring]; exact h3)]
  simp only [mBind_run]
  rw [hv1, hv2]
  rw [store_ok 0 72 _ (by rw [CURRENT_DEF_ADDR]; intro hc; exact absurd hc.1 (by decide))
    (by decide)]
  show (Except.ok (), _) = _
  rw [Prod.mk.injEq]
  refine ⟨rfl, ?_⟩
  show ({ st with
      cells := ((st.cells.set (Int.fdiv st.s 8).toNat 0).set
        (Int.fdiv (st.s + 8) 8).toNat STATE_ADDR).set ((Int.fdiv 72 8).toNat) 0,
      s := st.s + 8 + 8 - 8 - 8 } : Machine) = _
  rw [hfd8, hfd, hts]
  rw [show ((Int.fdiv 72 8).toNat) = 9 from rfl]
  rw [show st.s + 8 + 8 - 8 - 8 = st.s by ring]
  rw [show (STATE_ADDR : Int) = 72 from rfl]

theorem QUIT_eq :
    QUIT = mBind rEmpty (fun _ => mBind (blankGo 256 0) (fun _ =>
      mBind (store 0 INPUT_BUFFER_CHARS_ADDR) (fun _ =>
        mBind (store 0 TO_IN_ADDR) (fun _ => LEFT_BRACKET)))) := rfl

set_option maxHeartbeats 2000000 in
/-- Source `QUIT` on a machine whose stack pointer is in the stack discipline:
the return-stack pointer is reset, the input buffer is blanked, the
`>IN`, input-count and `STATE` cells are cleared, two transient cells are
written just above the stack top, and nothing else changes. -/
theorem QUIT_run (st : Machine) (h1 : DATA_STACK_ADDR ≤ st.s)
    (h2 : st.s < MEMORY_SIZE) (h3 : Int.tmod st.s 8 = 0) :
    ∃ ch, QUIT st = (Except.ok (),
      { st with
        chars := ch,
        cells := ((((st.cells.set 11 0).set 10 0).set
          ((Int.fdiv st.s 8).toNat) 0).set
          ((Int.fdiv st.s 8).toNat + 1) 72).set 9 0,
        r := RET_STACK_ADDR }) ∧
      ∀ c : Nat, c < 131072 → (c < 120 ∨ 376 ≤ c) →
        ch.get c = st.chars.get c := by
  obtain ⟨ch, hrun, hfr⟩ :=
    blankGo_spec 256 0 { st with r := RET_STACK_ADDR } (by omega)
  refine ⟨ch, ?_, fun c hc hcr => hfr c hc (by omega)⟩
  rw [QUIT_eq]
  simp only [mBind_run, rEmpty_run]
  rw [hrun]
  simp only [mBind_run]
  rw [store_ok 0 INPUT_BUFFER_CHARS_ADDR _
    (by rw [INPUT_BUFFER_CHARS_ADDR, CURRENT_DEF_ADDR]
        intro hc
        exact absurd hc.1 (by decide))
    (by decide)]
  simp only [mBind_run]
  rw [store_ok 0 TO_IN_ADDR _
    (by rw [TO_IN_ADDR, CURRENT_DEF_ADDR]
        intro hc
        exact absurd hc.1 (by decide))
    (by decide)]
  simp only [mBind_run]
  rw [LEFT_BRACKET_run
    { st with
      chars := ch,
      cells := (st.cells.set ((Int.fdiv INPUT_BUFFER_CHARS_ADDR 8).toNat) 0).set
        ((Int.fdiv TO_IN_ADDR 8).toNat) 0,
      r := RET_STACK_ADDR } h1 h2 h3]
  rfl

theorem ABORT_eq : ABORT = mBind empty (fun _ => QUIT) := rfl

/-- Source `ABORT` on any machine: the stack pointers are reset, the input area
is blanked, the bookkeeping cells are cleared, and everything else —
including the data-space pointer and the dictionary region — survives. -/
theorem ABORT_run (st : Machine) :
    ∃ ch, ABORT st = (Except.ok (),
      { st with
        chars := ch,
        cells := ((((st.cells.set 11 0).set 10 0).set 47 0).set 48 72).set 9 0,
        s := DATA_STACK_ADDR,
        r := RET_STACK_ADDR }) ∧
      ∀ c : Nat, c < 131072 → (c < 120 ∨ 376 ≤ c) →
        ch.get c = st.chars.get c := by
  obtain ⟨ch, hrun, hfr⟩ := QUIT_run { st with s := DATA_STACK_ADDR }
    (le_refl _)
    (by show (DATA_STACK_ADDR : Int) < MEMORY_SIZE; decide)
    (by show Int.tmod DATA_STACK_ADDR 8 = 0; decide)
  refine ⟨ch, ?_, hfr⟩
  rw [ABORT_eq]
  simp only [mBind_run, empty_run]
  rw [hrun]
  rfl

/-- The writes `ABORT` makes to the cell view leave every other index
alone. -/
theorem get_abortCells (t : Tree) (a : Nat) (ha : a < 131072)
    (h9 : a ≠ 9) (h10 : a ≠ 10) (h11 : a ≠ 11) (h47 : a ≠ 47) (h48 : a ≠ 48) :
    (((((t.set 11 0).set 10 0).set 47 0).set 48 72).set 9 0).get a = t.get a := by
  rw [Tree.get_set _ _ _ _ (by omega) ha, if_neg h9]
  rw [Tree.get_set _ _ _ _ (by omega) ha, if_neg h48]
  rw [Tree.get_set _ _ _ _ (by omega) ha, if_neg h47]
  rw [Tree.get_set _ _ _ _ (by omega) ha, if_neg h10]
  rw [Tree.get_set _ _ _ _ (by omega) ha, if_neg h11]

/-- C7: `ABORT` succeeds on every machine, empties the data and return
stacks, and leaves the data-space pointer, the dictionary-head cell at
`CURRENT_DEF_ADDR`, every cell from byte address 392 up and every char
from byte address 376 up unchanged, so definitions made before the abort
survive it. -/
theorem ABORT_preserves_dictionary (st : Machine) :
    (ABORT st).1 = Except.ok () ∧
    (ABORT st).2.s = DATA_STACK_ADDR ∧
    (ABORT st).2.r = RET_STACK_ADDR ∧
    (ABORT st).2.ds = st.ds ∧
    cellAt (ABORT st).2.cells CURRENT_DEF_ADDR = cellAt st.cells CURRENT_DEF_ADDR ∧
    (∀ a : Nat, a < 131072 → 49 ≤ a → (ABORT st).2.cells.get a = st.cells.get a) ∧
    (∀ c : Nat, 376 ≤ c → c < 131072 → (ABORT st).2.chars.get c = st.chars.get c) := by
  obtain ⟨ch, hrun, hfr⟩ := ABORT_run st
  rw [hrun]
  refine ⟨rfl, rfl, rfl, rfl, ?_, ?_, ?_⟩
  · show (((((st.cells.set 11 0).set 10 0).set 47 0).set 48 72).set 9 0).get 12 =
      st.cells.get 12
    exact get_abortCells st.cells 12 (by decide) (by decide) (by decide)
      (by decide) (by decide) (by decide)
  · intro a ha h49
    exact get_abortCells st.cells a ha (by omega) (by omega) (by omega)
      (by omega) (by omega)
  · intro c h376 hc
    exact hfr c hc (Or.inr h376)

theorem ABORT_preserves_dictionary_witness :
    (ABORT abortDemo).2.ds = abortDemo.ds ∧
    (ABORT abortDemo).2.cells.get 1500 = abortDemo.cells.get 1500 ∧
    (ABORT abortDemo).2.chars.get 10000 = abortDemo.chars.get 10000 :=
  ⟨(ABORT_preserves_dictionary abortDemo).2.2.2.1,
   (ABORT_preserves_dictionary abortDemo).2.2.2.2.2.1 1500 (by decide) (by decide),
   (ABORT_preserves_dictionary abortDemo).2.2.2.2.2.2 10000 (by decide) (by decide)⟩

set_option maxRecDepth 10000 in
set_option maxHeartbeats 1000000 in
/-- Counterexample to C8 as stated: on a machine whose data-space pointer
is 10008, `ABORT` leaves it at 10008 rather than resetting it to 10000,
and `QUIT` leaves the data-stack pointer at 400 rather than resetting it
to 376. -/
theorem abort_leaves_ds_quit_leaves_s :
    (ABORT quitDemo).2.ds = 10008 ∧ (QUIT quitDemo).2.s = 400 := ⟨rfl, rfl⟩

/-- C8 (amended): `ABORT` resets the data-stack and return-stack pointers
to their start values 376 and 632 and `QUIT` resets the return-stack
pointer to 632; the data-space pointer is unchanged by both, and `QUIT`
leaves the data-stack pointer where it was. -/
theorem abort_quit_register_effects (st : Machine)
    (h1 : DATA_STACK_ADDR ≤ st.s) (h2 : st.s < MEMORY_SIZE)
    (h3 : Int.tmod st.s 8 = 0) :
    (ABORT st).2.s = DATA_STACK_ADDR ∧
    (ABORT st).2.r = RET_STACK_ADDR ∧
    (ABORT st).2.ds = st.ds ∧
    (QUIT st).2.r = RET_STACK_ADDR ∧
    (QUIT st).2.s = st.s ∧
    (QUIT st).2.ds = st.ds := by
  obtain ⟨ch, hrun, h1f⟩ := ABORT_run st
  obtain ⟨ch2, hrun2, h2f⟩ := QUIT_run st h1 h2 h3
  rw [hrun, hrun2]
  exact ⟨rfl, rfl, rfl, rfl, rfl, rfl⟩

theorem abort_quit_register_effects_witness :
    (DATA_STACK_ADDR ≤ quitDemo2.s ∧ quitDemo2.s < MEMORY_SIZE ∧
      Int.tmod quitDemo2.s 8 = 0) ∧
    (QUIT quitDemo2).2.s = quitDemo2.s ∧ (ABORT quitDemo2).2.ds = quitDemo2.ds :=
  ⟨⟨by decide, by decide, by decide⟩,
   (abort_quit_register_effects quitDemo2 (by decide) (by decide) (by decide)).2.2.2.2.1,
   (abort_quit_register_effects quitDemo2 (by decide) (by decide) (by decide)).2.2.1⟩

end Forth
